import Mathlib

/-!
Verification development for the Spectre processor simulator.

The definitions below are shallow embeddings of the C sources:
  - src/cpu/instruction_set.c  (instruction codec)
  - src/cpu/cache.c            (cache model)
  - src/cpu/branch_predictor.c (branch predictor)
  - src/cpu/pipeline.c         (six-stage in-order pipeline)
  - src/cpu/tomasulo.c         (out-of-order engine)

Machine integers are modelled as Nat; 64-bit wraparound is made explicit
with `% U64` exactly where the C arithmetic can wrap.  C arrays indexed by
integers are modelled as total functions Nat → _ together with a pointwise
update operation; memory is a byte function Nat → Nat.  `*(uint64_t*)p`
loads and stores are modelled as 8 little-endian byte reads/writes, which
is the byte layout on the platform the simulator targets.
-/

namespace Spectre

/-- 2^64, the modulus of the C `uint64_t` arithmetic. -/
def U64 : Nat := 2 ^ 64

/-- Pointwise update of a function modelling a C array. -/
def upd {α : Type} (f : Nat → α) (i : Nat) (v : α) : Nat → α :=
  fun j => if j = i then v else f j

/-- Pointwise update of a doubly indexed C array. -/
def upd2 {α : Type} (f : Nat → Nat → α) (i j : Nat) (v : α) : Nat → Nat → α :=
  fun a => if a = i then upd (f a) j v else f a

/-- Read `n` little-endian bytes starting at `off`; this is the value the C
code obtains from `*(uint64_t*)(mem + off)` when `n = 8`. -/
def readLE (mem : Nat → Nat) (off n : Nat) : Nat :=
  match n with
  | 0 => 0
  | n + 1 => mem off + 256 * readLE mem (off + 1) n

/-- Store `n` little-endian bytes of `a` starting at `off`; this is the C
store `*(uint64_t*)(buf + off) = a` when `n = 8`. -/
def writeLE (buf : Nat → Nat) (off n a : Nat) : Nat → Nat :=
  match n with
  | 0 => buf
  | n + 1 => writeLE (upd buf off (a % 256)) (off + 1) n (a / 256)

/-! ## Instruction codec (src/cpu/instruction_set.c, include/cpu.h) -/

/-- `InstructionType` from include/cpu.h; the enumerators are numbered from
0 (INST_NOP) to 20 (INST_HLT) in declaration order. -/
inductive InstructionType where
  | NOP | ADD | SUB | MUL | DIV | AND | OR | XOR | NOT2 | SHL | SHR
  | LD | ST | JMP | JZ | JNZ | CALL | RET | CMP | MOV | HLT
  deriving DecidableEq, Repr

/-- The C enum value of each instruction type (its declaration index). -/
def instTypeVal (t : InstructionType) : Nat :=
  match t with
  | .NOP => 0 | .ADD => 1 | .SUB => 2 | .MUL => 3 | .DIV => 4
  | .AND => 5 | .OR => 6 | .XOR => 7 | .NOT2 => 8 | .SHL => 9
  | .SHR => 10 | .LD => 11 | .ST => 12 | .JMP => 13 | .JZ => 14
  | .JNZ => 15 | .CALL => 16 | .RET => 17 | .CMP => 18 | .MOV => 19
  | .HLT => 20

/-- Inverse of `instTypeVal`, the C cast `(InstructionType)n`. -/
def instTypeOfNat (n : Nat) : InstructionType :=
  match n with
  | 0 => .NOP | 1 => .ADD | 2 => .SUB | 3 => .MUL | 4 => .DIV
  | 5 => .AND | 6 => .OR | 7 => .XOR | 8 => .NOT2 | 9 => .SHL
  | 10 => .SHR | 11 => .LD | 12 => .ST | 13 => .JMP | 14 => .JZ
  | 15 => .JNZ | 16 => .CALL | 17 => .RET | 18 => .CMP | 19 => .MOV
  | 20 => .HLT
  | _ => .NOP

/-- `InstructionFormat` from instruction_set.c; FORMAT_R is enum value 0,
which is what a zero-initialised `DecodedInstruction` carries. -/
inductive InstructionFormat where
  | R | I | M | J | S
  deriving DecidableEq, Repr

/-- One row of the static `instruction_table`. -/
structure TableEntry where
  opcode : Nat
  itype : InstructionType
  format : InstructionFormat
  name : String
  deriving DecidableEq, Repr

/-- The static `instruction_table` of instruction_set.c. -/
def instruction_table : List TableEntry :=
  [ ⟨0x00, .NOP, .R, "nop"⟩,
    ⟨0x01, .ADD, .R, "add"⟩,
    ⟨0x02, .SUB, .R, "sub"⟩,
    ⟨0x03, .MUL, .R, "mul"⟩,
    ⟨0x04, .DIV, .R, "div"⟩,
    ⟨0x05, .AND, .R, "and"⟩,
    ⟨0x06, .OR, .R, "or"⟩,
    ⟨0x07, .XOR, .R, "xor"⟩,
    ⟨0x08, .NOT2, .R, "not"⟩,
    ⟨0x09, .SHL, .R, "shl"⟩,
    ⟨0x0A, .SHR, .R, "shr"⟩,
    ⟨0x0B, .LD, .M, "ld"⟩,
    ⟨0x0C, .ST, .M, "st"⟩,
    ⟨0x0D, .JMP, .J, "jmp"⟩,
    ⟨0x0E, .JZ, .J, "jz"⟩,
    ⟨0x0F, .JNZ, .J, "jnz"⟩,
    ⟨0x10, .CALL, .J, "call"⟩,
    ⟨0x11, .RET, .J, "ret"⟩,
    ⟨0x12, .CMP, .R, "cmp"⟩,
    ⟨0x13, .MOV, .R, "mov"⟩,
    ⟨0x14, .HLT, .S, "hlt"⟩ ]

/-- First table row whose opcode matches, as in the decode loop. -/
def lookupByOpcode (op : Nat) : Option TableEntry :=
  instruction_table.find? (fun e => e.opcode == op)

/-- First table row whose instruction type matches, as in the encode loop. -/
def lookupByType (t : InstructionType) : Option TableEntry :=
  instruction_table.find? (fun e => e.itype == t)

/-- `DecodedInstruction` from instruction_set.c. -/
structure DecodedInstruction where
  type : InstructionType
  format : InstructionFormat
  opcode : Nat
  rd : Nat
  rs1 : Nat
  rs2 : Nat
  imm : Nat
  address : Nat
  deriving DecidableEq, Repr

/-- The all-zero `DecodedInstruction inst = {0}` of the C code. -/
def zeroInst : DecodedInstruction :=
  ⟨.NOP, .R, 0, 0, 0, 0, 0, 0⟩

/-- `decode_instruction` from instruction_set.c.  `mem` holds bytes
(values < 256); decoding reads at most the instruction length. -/
def decode_instruction (mem : Nat → Nat) (pc : Nat) : DecodedInstruction :=
  let op := mem pc
  let base :=
    match lookupByOpcode op with
    | some e => { zeroInst with opcode := op, type := e.itype, format := e.format }
    | none => { zeroInst with opcode := op }
  if base.format = .R ∨ base.format = .M then
    let b1 := mem (pc + 1)
    let b2 := mem (pc + 2)
    { base with
      rd := (b1 >>> 4) &&& 0x0F,
      rs1 := b1 &&& 0x0F,
      rs2 := (b2 >>> 4) &&& 0x0F,
      address := if base.format = .M then readLE mem (pc + 3) 8 else base.address }
  else if base.format = .I ∨ base.format = .J then
    { base with
      rd := (mem (pc + 1) >>> 4) &&& 0x0F,
      imm := readLE mem (pc + 2) 8 }
  else
    base

/-- `encode_instruction` from instruction_set.c: returns the encoded size
and the buffer after the stores.  The byte stores truncate to 8 bits
exactly as the C assignments into `uint8_t buffer[]` do. -/
def encode_instruction (inst : DecodedInstruction) (buf : Nat → Nat) :
    Nat × (Nat → Nat) :=
  let buf0 :=
    match lookupByType inst.type with
    | some e => upd buf 0 e.opcode
    | none => buf
  match inst.format with
  | .R =>
      let buf1 := upd buf0 1 (((inst.rd <<< 4) ||| (inst.rs1 &&& 0x0F)) % 256)
      let buf2 := upd buf1 2 ((inst.rs2 <<< 4) % 256)
      (3, buf2)
  | .M =>
      let buf1 := upd buf0 1 (((inst.rd <<< 4) ||| (inst.rs1 &&& 0x0F)) % 256)
      let buf2 := upd buf1 2 ((inst.rs2 <<< 4) % 256)
      (11, writeLE buf2 3 8 inst.address)
  | .I =>
      (10, writeLE (upd buf0 1 ((inst.rd <<< 4) % 256)) 2 8 inst.imm)
  | .J =>
      (10, writeLE (upd buf0 1 ((inst.rd <<< 4) % 256)) 2 8 inst.imm)
  | .S =>
      (1, buf0)

/-! ## Cache model (src/cpu/cache.c) -/

/-- `CacheType` from include/cpu.h. -/
inductive CacheType where
  | DIRECT_MAPPED | SET_ASSOC | FULL_ASSOC
  deriving DecidableEq, Repr

/-- `Cache` from include/cpu.h.  The per-set arrays become functions of
set and way; `lru_counters` is the flat array indexed by
`set * associativity + way` (allocated only for set-associative caches in
the C code; here it is a total function that the other cache kinds simply
never read or write). -/
structure Cache where
  type : CacheType
  size : Nat
  line_size : Nat
  associativity : Nat
  num_sets : Nat
  hit_time : Nat
  miss_penalty : Nat
  tags : Nat → Nat → Nat
  valid : Nat → Nat → Bool
  lru_counters : Nat → Nat
  hits : Nat
  misses : Nat
  accesses : Nat

/-- `cache_create` from cache.c.  The C function performs no geometry
validation: `num_sets` is the silently truncated integer division
`(size / line_size) / associativity`, and the only failure mode is a
failed allocation (not modelled).  All ways start invalid with tag 0. -/
def cache_create (ty : CacheType) (size line_size associativity : Nat) : Cache :=
  let lines := size / line_size
  { type := ty, size := size, line_size := line_size,
    associativity := associativity, num_sets := lines / associativity,
    hit_time := 1, miss_penalty := 10,
    tags := fun _ _ => 0, valid := fun _ _ => false,
    lru_counters := fun _ => 0, hits := 0, misses := 0, accesses := 0 }

/-- The hit-scan loop of `cache_access`: first way in the set that is
valid with a matching tag. -/
def findHitWay (valid : Nat → Nat → Bool) (tags : Nat → Nat → Nat)
    (assocN set tag : Nat) : Option Nat :=
  (List.range assocN).find? (fun i => valid set i && (tags set i == tag))

/-- The victim-selection loop of `cache_access` for set-associative
caches: walks ways upward, stops at the first invalid way, otherwise
tracks the way with the smallest LRU stamp seen so far (`none` models the
initial `UINT64_MAX` sentinel, which every stamp is below). -/
def victimGo (valid : Nat → Bool) (lru : Nat → Nat) :
    Nat → Nat → Nat → Option Nat → Nat
  | 0, _, victim, _ => victim
  | fuel + 1, i, victim, minLru =>
      if valid i = false then i
      else
        let l := lru i
        let takeNew :=
          match minLru with
          | none => true
          | some m => decide (l < m)
        if takeNew then victimGo valid lru fuel (i + 1) i (some l)
        else victimGo valid lru fuel (i + 1) victim minLru

/-- Victim choice of `cache_access`: the LRU scan for set-associative
caches, the initial value `victim = 0` for every other cache type. -/
def victimSelect (c : Cache) (set : Nat) : Nat :=
  if c.type = CacheType.SET_ASSOC then
    victimGo (c.valid set) (fun i => c.lru_counters (set * c.associativity + i))
      c.associativity 0 0 none
  else 0

/-- `line_addr` of `cache_access`. -/
def cacheLine (c : Cache) (addr : Nat) : Nat := addr / c.line_size

/-- `set_index` of `cache_access`. -/
def cacheSetIndex (c : Cache) (addr : Nat) : Nat := cacheLine c addr % c.num_sets

/-- `tag` of `cache_access`. -/
def cacheTag (c : Cache) (addr : Nat) : Nat := cacheLine c addr / c.num_sets

/-- `cache_access` from cache.c.  Returns the cache after the access and
the latency (hit time or miss penalty).  The `is_write` flag is accepted
but, as in the C code, never read. -/
def cache_access (c : Cache) (addr : Nat) (is_write : Bool) : Cache × Nat :=
  let c1 := { c with accesses := c.accesses + 1 }
  let set_index := cacheSetIndex c addr
  let tag := cacheTag c addr
  match findHitWay c1.valid c1.tags c1.associativity set_index tag with
  | some i =>
      let c2 := { c1 with hits := c1.hits + 1 }
      let c3 :=
        if c2.type = CacheType.SET_ASSOC then
          { c2 with
            lru_counters := upd c2.lru_counters (set_index * c2.associativity + i) c2.accesses }
        else c2
      (c3, c3.hit_time)
  | none =>
      let c2 := { c1 with misses := c1.misses + 1 }
      let victim := victimSelect c2 set_index
      let c3 :=
        { c2 with
          valid := upd2 c2.valid set_index victim true
          tags := upd2 c2.tags set_index victim tag }
      let c4 :=
        if c3.type = CacheType.SET_ASSOC then
          { c3 with
            lru_counters := upd c3.lru_counters (set_index * c3.associativity + victim) c3.accesses }
        else c3
      (c4, c4.miss_penalty)

/-- The cache state after one read access. -/
def cacheStep (c : Cache) (addr : Nat) (w : Bool) : Cache := (cache_access c addr w).1

/-- Whether an access at `addr` would hit `c` (the scan that
`cache_access` performs, read off the current state). -/
def isHit (c : Cache) (addr : Nat) : Bool :=
  (findHitWay c.valid c.tags c.associativity (cacheSetIndex c addr) (cacheTag c addr)).isSome

/-- Whether an access at `addr` evicts a previously installed line: it
misses and the victim way it installs into is currently valid. -/
def accessEvicts (c : Cache) (addr : Nat) : Bool :=
  !isHit c addr && c.valid (cacheSetIndex c addr) (victimSelect c (cacheSetIndex c addr))

/-- Whether some access of the sequence evicts a valid line. -/
def evictsList (c : Cache) : List Nat → Bool
  | [] => false
  | a :: l => accessEvicts c a || evictsList (cacheStep c a false) l

/-- A tag is present in a set when some way of the set holds it valid. -/
def tagPresent (c : Cache) (set tag : Nat) : Prop :=
  ∃ w, w < c.associativity ∧ c.valid set w = true ∧ c.tags set w = tag

/-- The cache after a sequence of read accesses. -/
def foldSteps (c : Cache) (l : List Nat) : Cache :=
  l.foldl (fun st a => cacheStep st a false) c

/-! ## Branch predictor (src/cpu/branch_predictor.c) -/

/-- `PredictorType` from include/cpu.h. -/
inductive PredictorType where
  | ALWAYS_TAKEN | ALWAYS_NOT_TAKEN | BIMODAL | GSHARE
  deriving DecidableEq, Repr

/-- `BranchPredictor` from include/cpu.h; the PHT array becomes a
function from index to counter value. -/
structure BranchPredictor where
  type : PredictorType
  bhr_size : Nat
  pht_size : Nat
  bhr : Nat
  pht : Nat → Nat
  correct : Nat
  total : Nat

/-- `bp_create` from branch_predictor.c: every PHT entry starts at the
weakly taken value 2. -/
def bp_create (ty : PredictorType) (bhr_size pht_size : Nat) : BranchPredictor :=
  { type := ty, bhr_size := bhr_size, pht_size := pht_size, bhr := 0,
    pht := fun _ => 2, correct := 0, total := 0 }

/-- `bp_predict` from branch_predictor.c: bumps the total counter and
returns the policy's direction (`counter >= 2` for the table policies). -/
def bp_predict (bp : BranchPredictor) (pc : Nat) : Bool × BranchPredictor :=
  let bp1 := { bp with total := bp.total + 1 }
  match bp.type with
  | .ALWAYS_TAKEN => (true, bp1)
  | .ALWAYS_NOT_TAKEN => (false, bp1)
  | .BIMODAL => (decide (2 ≤ bp.pht (pc % bp.pht_size)), bp1)
  | .GSHARE => (decide (2 ≤ bp.pht ((pc ^^^ bp.bhr) % bp.pht_size)), bp1)

/-- The guarded 2-bit counter update of `bp_update`: increment when taken
while below 3, decrement when not taken while above 0. -/
def satIncDec (v : Nat) (taken : Bool) : Nat :=
  if taken then (if v < 3 then v + 1 else v) else (if 0 < v then v - 1 else v)

/-- `bp_update` from branch_predictor.c.  The gshare history update
`bhr = ((bhr << 1) | taken) & ((1 << bhr_size) - 1)` is modelled with the
uint32 wrap of the shift made explicit. -/
def bp_update (bp : BranchPredictor) (pc : Nat) (taken predicted : Bool) :
    BranchPredictor :=
  let bp1 := if taken == predicted then { bp with correct := bp.correct + 1 } else bp
  match bp1.type with
  | .BIMODAL =>
      let index := pc % bp1.pht_size
      { bp1 with pht := upd bp1.pht index (satIncDec (bp1.pht index) taken) }
  | .GSHARE =>
      let index := (pc ^^^ bp1.bhr) % bp1.pht_size
      let bp2 := { bp1 with pht := upd bp1.pht index (satIncDec (bp1.pht index) taken) }
      { bp2 with
        bhr :=
          (((bp2.bhr <<< 1) % 2 ^ 32) ||| (if taken then 1 else 0)) &&&
            ((1 <<< bp2.bhr_size) - 1) }
  | _ => bp1

/-! ## In-order pipeline (src/cpu/pipeline.c) -/

/-- `PipelineRegister` from include/cpu.h. -/
structure PipelineRegister where
  pc : Nat
  type : InstructionType
  opcode : Nat
  src1 : Nat
  src2 : Nat
  dest : Nat
  immediate : Nat
  result : Nat
  mem_addr : Nat
  mem_data : Nat
  stall : Bool
  bubble : Bool
  cycle_entered : Nat
  deriving DecidableEq, Repr

/-- `CPU` from include/cpu.h; the six pipeline registers are the fields
`pipeF` (FETCH) through `pipeC` (COMMIT), and memory is the byte function
`memory` (the malloc contents are a parameter of `cpu_create`). -/
structure CPU where
  registers : Nat → Nat
  pc : Nat
  sp : Nat
  flags : Nat
  memory : Nat → Nat
  mem_size : Nat
  l1_cache : Cache
  l2_cache : Cache
  bp : BranchPredictor
  pipeF : PipelineRegister
  pipeD : PipelineRegister
  pipeE : PipelineRegister
  pipeM : PipelineRegister
  pipeW : PipelineRegister
  pipeC : PipelineRegister
  cycles : Nat
  instructions : Nat
  stalls : Nat
  bubbles : Nat

/-- The pipeline register of stage `i` (0 = FETCH .. 5 = COMMIT). -/
def pipelineGet (cpu : CPU) (i : Nat) : PipelineRegister :=
  match i with
  | 0 => cpu.pipeF | 1 => cpu.pipeD | 2 => cpu.pipeE
  | 3 => cpu.pipeM | 4 => cpu.pipeW | _ => cpu.pipeC

/-- `check_hazard` from pipeline.c: scan every stage strictly after
`stage` for a non-NOP whose destination is `reg`. -/
def check_hazard (cpu : CPU) (stage reg : Nat) : Bool :=
  (List.range 6).any (fun i =>
    decide (stage < i) &&
    ((pipelineGet cpu i).dest == reg) &&
    !((pipelineGet cpu i).type == InstructionType.NOP))

/-- A zeroed pipeline register with type NOP, the state `cpu_reset`
leaves in every stage. -/
def resetReg : PipelineRegister :=
  { pc := 0, type := .NOP, opcode := 0, src1 := 0, src2 := 0, dest := 0,
    immediate := 0, result := 0, mem_addr := 0, mem_data := 0,
    stall := false, bubble := false, cycle_entered := 0 }

/-- `cpu_reset` from pipeline.c (the wall-clock start time is not
modelled). -/
def cpu_reset (cpu : CPU) : CPU :=
  { cpu with
    registers := fun _ => 0
    pc := 0x1000
    sp := 0x8000
    flags := 0
    pipeF := resetReg
    pipeD := resetReg
    pipeE := resetReg
    pipeM := resetReg
    pipeW := resetReg
    pipeC := resetReg
    cycles := 0
    instructions := 0
    stalls := 0
    bubbles := 0 }

/-- `cpu_create` from pipeline.c: caches and predictor as configured
there, then `cpu_reset`.  `mem0` stands for the uninitialised malloc
contents of the memory buffer. -/
def cpu_create (mem0 : Nat → Nat) (mem_size : Nat) : CPU :=
  cpu_reset
    { registers := fun _ => 0, pc := 0, sp := 0, flags := 0,
      memory := mem0, mem_size := mem_size,
      l1_cache := cache_create .SET_ASSOC (32 * 1024) 64 8,
      l2_cache := cache_create .SET_ASSOC (256 * 1024) 64 16,
      bp := bp_create .BIMODAL 12 4096,
      pipeF := resetReg, pipeD := resetReg, pipeE := resetReg,
      pipeM := resetReg, pipeW := resetReg, pipeC := resetReg,
      cycles := 0, instructions := 0, stalls := 0, bubbles := 0 }

/-- Program bytes copied over memory at `address`, the `memcpy` of
`cpu_load_program`. -/
def overlayProg (mem : Nat → Nat) (prog : List Nat) (address : Nat) : Nat → Nat :=
  fun a => if address ≤ a ∧ a < address + prog.length then prog.getD (a - address) 0 else mem a

/-- `cpu_load_program` from pipeline.c: fails when the program does not
fit, otherwise copies the bytes and points the pc at it. -/
def cpu_load_program (cpu : CPU) (prog : List Nat) (address : Nat) : Option CPU :=
  if address + prog.length > cpu.mem_size then none
  else some { cpu with memory := overlayProg cpu.memory prog address, pc := address }

/-- The opcode-to-type map of `stage_fetch`: enum cast below 20,
otherwise NOP. -/
def fetchDecodeType (opcode : Nat) : InstructionType :=
  if opcode < 20 then instTypeOfNat opcode else .NOP

/-- The flush assignment of `stage_fetch`: type NOP, bubble set. -/
def flushPipe (r : PipelineRegister) : PipelineRegister :=
  { r with type := .NOP, bubble := true }

/-- `stage_fetch` from pipeline.c. -/
def stage_fetch (cpu : CPU) : CPU :=
  if cpu.pipeF.stall then { cpu with stalls := cpu.stalls + 1 }
  else
    let cpu1 :=
      if cpu.pipeE.type = .JMP ∨ cpu.pipeE.type = .JZ ∨ cpu.pipeE.type = .JNZ then
        let taken := cpu.pipeE.result != 0
        let pr := bp_predict cpu.bp cpu.pipeE.pc
        let cpu0 := { cpu with bp := pr.2 }
        if taken != pr.1 then
          { cpu0 with
            pipeD := flushPipe cpu0.pipeD
            pipeE := flushPipe cpu0.pipeE
            pipeM := flushPipe cpu0.pipeM
            pipeW := flushPipe cpu0.pipeW
            pipeC := flushPipe cpu0.pipeC
            pc := cpu0.pipeE.result
            bubbles := cpu0.bubbles + 3 }
        else cpu0
      else cpu
    let ca := cache_access cpu1.l1_cache cpu1.pc false
    let cpu2 := { cpu1 with l1_cache := ca.1 }
    let opcode := cpu2.memory cpu2.pc
    { cpu2 with
      pipeF :=
        { cpu2.pipeF with
          pc := cpu2.pc
          opcode := opcode
          cycle_entered := cpu2.cycles
          type := fetchDecodeType opcode }
      pc := (cpu2.pc + 1) % U64 }

/-- `stage_decode` from pipeline.c. -/
def stage_decode (cpu : CPU) : CPU :=
  let prev := cpu.pipeF
  if prev.bubble then
    { cpu with pipeD := { cpu.pipeD with type := .NOP, bubble := true } }
  else if check_hazard cpu 1 prev.src1 || check_hazard cpu 1 prev.src2 then
    { cpu with
      pipeF := { cpu.pipeF with stall := true }
      pipeD := { cpu.pipeD with type := .NOP }
      stalls := cpu.stalls + 1 }
  else
    let pr0 := { prev with cycle_entered := cpu.cycles }
    { cpu with
      pipeD :=
        { pr0 with
          src1 := cpu.registers (pr0.opcode &&& 0x0F)
          src2 := cpu.registers ((pr0.opcode >>> 4) &&& 0x0F) } }

/-- `stage_execute` from pipeline.c.  All 64-bit arithmetic wraps mod
`U64`; subtraction is the uint64 two's-complement wraparound. -/
def stage_execute (cpu : CPU) : CPU :=
  let prev := cpu.pipeD
  if prev.bubble then
    { cpu with pipeE := { cpu.pipeE with type := .NOP, bubble := true } }
  else
    let pr0 := { prev with cycle_entered := cpu.cycles }
    let cpu1 :=
      match pr0.type with
      | .ADD => { cpu with pipeE := { pr0 with result := (pr0.src1 + pr0.src2) % U64 } }
      | .SUB => { cpu with pipeE := { pr0 with result := (pr0.src1 + (U64 - pr0.src2 % U64)) % U64 } }
      | .MUL => { cpu with pipeE := { pr0 with result := (pr0.src1 * pr0.src2) % U64 } }
      | .AND => { cpu with pipeE := { pr0 with result := pr0.src1 &&& pr0.src2 } }
      | .OR => { cpu with pipeE := { pr0 with result := pr0.src1 ||| pr0.src2 } }
      | .XOR => { cpu with pipeE := { pr0 with result := pr0.src1 ^^^ pr0.src2 } }
      | .SHL => { cpu with pipeE := { pr0 with result := (pr0.src1 <<< (pr0.src2 &&& 0x3F)) % U64 } }
      | .SHR => { cpu with pipeE := { pr0 with result := pr0.src1 >>> (pr0.src2 &&& 0x3F) } }
      | .JMP => { cpu with pipeE := { pr0 with result := pr0.immediate } }
      | .JZ => { cpu with pipeE := { pr0 with result := if pr0.src1 = 0 then pr0.immediate else (pr0.pc + 1) % U64 } }
      | .JNZ => { cpu with pipeE := { pr0 with result := if pr0.src1 ≠ 0 then pr0.immediate else (pr0.pc + 1) % U64 } }
      | .CMP =>
          let f := (pr0.src1 + (U64 - pr0.src2 % U64)) % U64
          { cpu with flags := f, pipeE := { pr0 with result := f } }
      | .MOV => { cpu with pipeE := { pr0 with result := pr0.src1 } }
      | _ => { cpu with pipeE := { pr0 with result := 0 } }
    if cpu1.pipeE.type = .JMP ∨ cpu1.pipeE.type = .JZ ∨ cpu1.pipeE.type = .JNZ then
      let taken := cpu1.pipeE.result != ((cpu1.pipeE.pc + 1) % U64)
      let pr := bp_predict cpu1.bp cpu1.pipeE.pc
      { cpu1 with bp := bp_update pr.2 cpu1.pipeE.pc taken pr.1 }
    else cpu1

/-- `stage_memory` from pipeline.c: loads and stores move 8 little-endian
bytes and touch the L1 cache for timing. -/
def stage_memory (cpu : CPU) : CPU :=
  let prev := cpu.pipeE
  if prev.bubble then
    { cpu with pipeM := { cpu.pipeM with type := .NOP, bubble := true } }
  else
    let pr0 := { prev with cycle_entered := cpu.cycles }
    if pr0.type = .LD then
      let ca := cache_access cpu.l1_cache pr0.mem_addr false
      { cpu with
        l1_cache := ca.1
        pipeM := { pr0 with result := readLE cpu.memory pr0.mem_addr 8 } }
    else if pr0.type = .ST then
      let ca := cache_access cpu.l1_cache pr0.mem_addr true
      { cpu with
        l1_cache := ca.1
        memory := writeLE cpu.memory pr0.mem_addr 8 pr0.mem_data
        pipeM := pr0 }
    else
      { cpu with pipeM := pr0 }

/-- `stage_writeback` from pipeline.c: writes the result to the
destination register when the index is below 16. -/
def stage_writeback (cpu : CPU) : CPU :=
  let prev := cpu.pipeM
  if prev.bubble then
    { cpu with pipeW := { cpu.pipeW with type := .NOP, bubble := true } }
  else
    let pr0 := { prev with cycle_entered := cpu.cycles }
    let regs := if pr0.dest < 16 then upd cpu.registers pr0.dest pr0.result else cpu.registers
    { cpu with
      pipeW := pr0
      registers := regs
      instructions := cpu.instructions + 1 }

/-- `stage_commit` from pipeline.c: clears a retired bubble and always
clears the fetch stall flag. -/
def stage_commit (cpu : CPU) : CPU :=
  let prev := cpu.pipeW
  let cpu1 :=
    if prev.bubble then
      { cpu with pipeC := { cpu.pipeC with type := .NOP, bubble := false } }
    else
      { cpu with pipeC := prev }
  { cpu1 with pipeF := { cpu1.pipeF with stall := false } }

/-- `cpu_step` from pipeline.c: stages advance in reverse pipeline order,
then the cycle counter is bumped. -/
def cpu_step (cpu : CPU) : CPU :=
  let c1 := stage_commit cpu
  let c2 := stage_writeback c1
  let c3 := stage_memory c2
  let c4 := stage_execute c3
  let c5 := stage_decode c4
  let c6 := stage_fetch c5
  { c6 with cycles := c6.cycles + 1 }

/-- `cpu_run` from pipeline.c. -/
def cpu_run (n : Nat) (cpu : CPU) : CPU :=
  match n with
  | 0 => cpu
  | n + 1 => cpu_run n (cpu_step cpu)

/-- All six stage registers hold NOPs and the fetch stage is not
stalled: the state an all-NOP instruction stream keeps the pipeline in. -/
def allNopQuiet (cpu : CPU) : Prop :=
  cpu.pipeF.type = .NOP ∧ cpu.pipeD.type = .NOP ∧ cpu.pipeE.type = .NOP ∧
  cpu.pipeM.type = .NOP ∧ cpu.pipeW.type = .NOP ∧ cpu.pipeC.type = .NOP ∧
  cpu.pipeF.stall = false

/-- Memory whose every byte is 0 or at least 20, so each fetch decodes to
NOP (the HLT opcode 20 included). -/
def nopBytes (mem : Nat → Nat) : Prop := ∀ a, mem a = 0 ∨ 20 ≤ mem a

/-- All six pipeline destination fields are zero — the state the pipeline
never leaves, since no stage ever assigns `dest`. -/
def destFree (cpu : CPU) : Prop :=
  cpu.pipeF.dest = 0 ∧ cpu.pipeD.dest = 0 ∧ cpu.pipeE.dest = 0 ∧
  cpu.pipeM.dest = 0 ∧ cpu.pipeW.dest = 0 ∧ cpu.pipeC.dest = 0

/-- A fetch-stalled state whose Execute register carries a mispredicted
jump: the Execute stage holds a JMP with result 0 (not taken) while the
fresh bimodal predictor predicts taken, but the fetch stall flag is set. -/
def c2StallState : CPU :=
  { cpu_create (fun _ => 0) 65536 with
    pipeF := { resetReg with stall := true }
    pipeE := { resetReg with type := .JMP, result := 0 } }

/-- The same mispredicted-jump state with the fetch stage not stalled. -/
def c2MispredictState : CPU :=
  { cpu_create (fun _ => 0) 65536 with
    pipeE := { resetReg with type := .JMP, result := 0 } }

/-- The CPU produced by loading the hazard test program
`MOV R0, 10; ADD R1, R0, R0` (bytes 19 0 10, 1 16 0) at 0x1000 into a
fresh 64 KiB machine. -/
def c3Loaded : CPU :=
  { cpu_create (fun _ => 0) 65536 with
    memory := overlayProg (cpu_create (fun _ => 0) 65536).memory [19, 0, 10, 1, 16, 0] 4096
    pc := 4096 }

/-! ## Out-of-order engine (src/cpu/tomasulo.c) -/

/-- `ReservationStation` from tomasulo.c. -/
structure ReservationStation where
  busy : Bool
  op : InstructionType
  vj : Nat
  vk : Nat
  qj : Nat
  qk : Nat
  dest : Nat
  address : Nat
  result : Nat
  result_ready : Bool
  deriving DecidableEq, Repr

/-- `ROBEntry` from tomasulo.c. -/
structure ROBEntry where
  busy : Bool
  op : InstructionType
  result : Nat
  dest : Nat
  ready : Bool
  exception : Bool
  deriving DecidableEq, Repr

/-- `TomasuloCPU` from tomasulo.c; the calloc-zeroed arrays become
functions. -/
structure TomasuloCPU where
  rs : Nat → ReservationStation
  rob : Nat → ROBEntry
  registers : Nat → Nat
  reg_status : Nat → Nat
  rs_count : Nat
  rob_size : Nat
  rs_head : Nat
  rs_tail : Nat
  rob_head : Nat
  rob_tail : Nat
  clock : Nat
  instructions_issued : Nat
  instructions_completed : Nat
  instructions_committed : Nat

/-- A calloc-zeroed reservation station. -/
def emptyRS : ReservationStation :=
  ⟨false, .NOP, 0, 0, 0, 0, 0, 0, 0, false⟩

/-- A calloc-zeroed reorder buffer entry. -/
def emptyROB : ROBEntry := ⟨false, .NOP, 0, 0, false, false⟩

/-- `tomasulo_create` from tomasulo.c. -/
def tomasulo_create (rs_count rob_size : Nat) : TomasuloCPU :=
  { rs := fun _ => emptyRS, rob := fun _ => emptyROB,
    registers := fun _ => 0, reg_status := fun _ => 0,
    rs_count := rs_count, rob_size := rob_size,
    rs_head := 0, rs_tail := 0, rob_head := 0, rob_tail := 0,
    clock := 0, instructions_issued := 0, instructions_completed := 0,
    instructions_committed := 0 }

/-- The free-station scan of `tomasulo_issue`. -/
def findFreeRS (rs : Nat → ReservationStation) (n : Nat) : Option Nat :=
  (List.range n).find? (fun i => !(rs i).busy)

/-- `tomasulo_issue` from tomasulo.c.  Returns whether the instruction
was issued together with the engine state afterwards; with no free
station it returns the state untouched. -/
def tomasulo_issue (cpu : TomasuloCPU) (inst : DecodedInstruction) :
    Bool × TomasuloCPU :=
  match findFreeRS cpu.rs cpu.rs_count with
  | none => (false, cpu)
  | some i =>
      let st1 := { cpu.rs i with busy := true, op := inst.type, dest := inst.rd }
      let st2 :=
        if cpu.reg_status inst.rs1 = 0 then
          { st1 with vj := cpu.registers inst.rs1, qj := 0 }
        else { st1 with qj := cpu.reg_status inst.rs1 }
      let st3 :=
        if cpu.reg_status inst.rs2 = 0 then
          { st2 with vk := cpu.registers inst.rs2, qk := 0 }
        else { st2 with qk := cpu.reg_status inst.rs2 }
      let ri := cpu.rob_tail
      let e :=
        { cpu.rob ri with
          busy := true
          op := inst.type
          dest := inst.rd
          ready := false
          exception := false }
      (true,
        { cpu with
          rs := upd cpu.rs i st3
          rob := upd cpu.rob ri e
          reg_status := upd cpu.reg_status inst.rd (ri + 1)
          rob_tail := (ri + 1) % cpu.rob_size
          instructions_issued := cpu.instructions_issued + 1 })

/-- The ALU of `tomasulo_execute` (only ADD/SUB/MUL are implemented;
everything else computes 0). -/
def execOp (t : InstructionType) (a b : Nat) : Nat :=
  match t with
  | .ADD => (a + b) % U64
  | .SUB => (a + (U64 - b % U64)) % U64
  | .MUL => (a * b) % U64
  | _ => 0

/-- `tomasulo_execute` from tomasulo.c: every busy station whose operand
tags are clear computes its result in this step. -/
def tomasulo_execute (cpu : TomasuloCPU) : TomasuloCPU :=
  (List.range cpu.rs_count).foldl
    (fun t i =>
      let s := t.rs i
      if s.busy && (s.qj == 0) && (s.qk == 0) then
        { t with
          rs := upd t.rs i { s with result := execOp s.op s.vj s.vk, result_ready := true }
          instructions_completed := t.instructions_completed + 1 }
      else t)
    cpu

/-- `tomasulo_writeback` from tomasulo.c: each finished station delivers
its result to the first busy, not-yet-ready reorder buffer entry (not to
the entry allocated for it at issue), then frees itself. -/
def tomasulo_writeback (cpu : TomasuloCPU) : TomasuloCPU :=
  (List.range cpu.rs_count).foldl
    (fun t i =>
      let s := t.rs i
      if s.busy && s.result_ready then
        let t2 :=
          match (List.range t.rob_size).find?
              (fun j => (t.rob j).busy && !(t.rob j).ready) with
          | some j =>
              { t with
                rob := upd t.rob j { t.rob j with result := s.result, ready := true } }
          | none => t
        { t2 with
          rs := upd t2.rs i { t2.rs i with busy := false, result_ready := false } }
      else t)
    cpu

/-- The body of the `tomasulo_commit` while loop applied once to the
head entry (which must be busy and ready). -/
def commitAux : Nat → TomasuloCPU → TomasuloCPU
  | 0, t => t
  | fuel + 1, t =>
      let e := t.rob t.rob_head
      if e.busy && e.ready then
        let t1 :=
          if !e.exception then
            { t with
              registers := upd t.registers e.dest e.result
              reg_status := upd t.reg_status e.dest 0 }
          else t
        commitAux fuel
          { t1 with
            rob := upd t1.rob t1.rob_head { e with busy := false }
            rob_head := (t1.rob_head + 1) % t1.rob_size
            instructions_committed := t1.instructions_committed + 1 }
      else t

/-- `tomasulo_commit` from tomasulo.c.  The C while loop clears the
busy flag of each entry it retires and never sets one, so after
`rob_size` iterations the scan is back at a now-free entry and stops;
`rob_size` fuel therefore reproduces the loop exactly. -/
def tomasulo_commit (t : TomasuloCPU) : TomasuloCPU := commitAux t.rob_size t

/-- Length of the run of busy-and-ready entries starting at `head`,
the number of entries the commit loop retires. -/
def headRunLen (rob : Nat → ROBEntry) (size : Nat) : Nat → Nat → Nat
  | 0, _ => 0
  | fuel + 1, head =>
      if (rob head).busy && (rob head).ready then
        1 + headRunLen rob size fuel ((head + 1) % size)
      else 0

/-- The reorder-buffer slot `i` entries past the head. -/
def robIdx (t : TomasuloCPU) (i : Nat) : Nat := (t.rob_head + i) % t.rob_size

/-- The first `k` entries from the head, in commit order. -/
def headEntries (t : TomasuloCPU) (k : Nat) : List ROBEntry :=
  (List.range k).map (fun i => t.rob (robIdx t i))

/-- Register-file contents after committing the listed entries in order
(exception entries write nothing). -/
def commitRegs (regs : Nat → Nat) : List ROBEntry → Nat → Nat
  | [] => regs
  | e :: l => commitRegs (if e.exception then regs else upd regs e.dest e.result) l

/-- Register-status table after committing the listed entries in order. -/
def commitStatus (st : Nat → Nat) : List ROBEntry → Nat → Nat
  | [] => st
  | e :: l => commitStatus (if e.exception then st else upd st e.dest 0) l

/-- The dependency-chain scenario of the spec: a fresh four-station,
eight-entry engine whose registers r2 and r3 hold 5 and 7. -/
def tomasuloDemoInit : TomasuloCPU :=
  { tomasulo_create 4 8 with
    registers := fun r => if r = 2 then 5 else if r = 3 then 7 else 0 }

/-- First instruction: ADD r1 := r2 + r3 (result 12). -/
def tomasuloDemoI1 : DecodedInstruction :=
  { zeroInst with type := .ADD, rd := 1, rs1 := 2, rs2 := 3 }

/-- Second instruction: ADD r4 := r1 + r1 (depends on the first; its
result should be 24). -/
def tomasuloDemoI2 : DecodedInstruction :=
  { zeroInst with type := .ADD, rd := 4, rs1 := 1, rs2 := 1 }

/-- Third instruction: ADD r5 := r2 + r2 (independent; result 10). -/
def tomasuloDemoI3 : DecodedInstruction :=
  { zeroInst with type := .ADD, rd := 5, rs1 := 2, rs2 := 2 }

/-- The scenario state after issuing all three instructions, executing
and writing back once. -/
def tomasuloDemoPre : TomasuloCPU :=
  tomasulo_writeback (tomasulo_execute
    (tomasulo_issue (tomasulo_issue
      (tomasulo_issue tomasuloDemoInit tomasuloDemoI1).2 tomasuloDemoI2).2 tomasuloDemoI3).2)

/-- The scenario state after the commit pass. -/
def tomasuloDemoFinal : TomasuloCPU := tomasulo_commit tomasuloDemoPre

end Spectre

namespace Spectre

/-! ## Helper lemmas about bytes and bit operations -/

theorem upd_same {α : Type} (f : Nat → α) (i : Nat) (v : α) : upd f i v i = v := by
  simp [upd]

theorem upd_ne {α : Type} (f : Nat → α) (i j : Nat) (v : α) (h : j ≠ i) :
    upd f i v j = f j := by
  simp [upd, h]

theorem writeLE_lt (off n a j : Nat) (buf : Nat → Nat) (h : j < off) :
    writeLE buf off n a j = buf j := by
  induction n generalizing buf off a with
  | zero => rfl
  | succ n ih =>
      simp only [writeLE]
      rw [ih _ _ _ (by omega)]
      simp [upd]
      omega

theorem readLE_writeLE (n : Nat) (buf : Nat → Nat) (off a : Nat) :
    readLE (writeLE buf off n a) off n = a % 256 ^ n := by
  induction n generalizing buf off a with
  | zero => simp [readLE, Nat.mod_one]
  | succ n ih =>
      simp only [readLE, writeLE]
      rw [writeLE_lt _ _ _ _ _ (by omega), upd_same, ih, pow_succ', Nat.mod_mul]

theorem shiftLeft_lor_eq_add (k a b : Nat) (h : b < 2 ^ k) :
    (a <<< k) ||| b = 2 ^ k * a + b := by
  apply Nat.eq_of_testBit_eq
  intro i
  rw [Nat.testBit_lor, Nat.testBit_shiftLeft]
  rcases Nat.lt_or_ge i k with hi | hi
  · have hdec : decide (i ≥ k) = false := by simp; omega
    rw [hdec, Bool.false_and, Bool.false_or, Nat.testBit_to_div_mod, Nat.testBit_to_div_mod]
    have hsplit : (2:Nat) ^ k = 2 ^ i * 2 ^ (k - i) := by rw [← pow_add]; congr 1; omega
    have h1 : (2 ^ k * a + b) / 2 ^ i = 2 ^ (k - i) * a + b / 2 ^ i := by
      rw [hsplit, Nat.mul_assoc, Nat.mul_add_div (pow_pos (by norm_num) i)]
    rw [h1]
    have h2 : (2:Nat) ^ (k - i) = 2 * 2 ^ (k - i - 1) := by
      rw [← pow_succ']; congr 1; omega
    rw [h2, Nat.mul_assoc]
    simp only [decide_eq_decide]
    omega
  · have hdec : decide (i ≥ k) = true := by simp [hi]
    rw [hdec, Bool.true_and]
    have hb : b.testBit i = false :=
      Nat.testBit_eq_false_of_lt (lt_of_lt_of_le h (Nat.pow_le_pow_right (by norm_num) hi))
    rw [hb, Bool.or_false, Nat.testBit_to_div_mod, Nat.testBit_to_div_mod]
    have hsplit : (2:Nat) ^ i = 2 ^ k * 2 ^ (i - k) := by rw [← pow_add]; congr 1; omega
    have h1 : (2 ^ k * a + b) / 2 ^ i = a / 2 ^ (i - k) := by
      rw [hsplit, ← Nat.div_div_eq_div_mul,
        Nat.mul_add_div (pow_pos (by norm_num) k), Nat.div_eq_of_lt h, Nat.add_zero]
    rw [h1]

theorem land_fifteen (x : Nat) : x &&& 15 = x % 16 := by
  have h := Nat.and_pow_two_sub_one_eq_mod x 4
  norm_num at h
  exact h

theorem shiftRight_four (x : Nat) : x >>> 4 = x / 16 := by
  rw [Nat.shiftRight_eq_div_pow]

theorem nibble_byte_round (rd rs1 : Nat) (h1 : rd < 16) :
    (((rd <<< 4) ||| (rs1 &&& 0x0F)) % 256) = 16 * rd + rs1 % 16 := by
  have h15 : rs1 &&& 0x0F = rs1 % 16 := land_fifteen rs1
  have hlt : rs1 % 16 < 16 := Nat.mod_lt _ (by norm_num)
  have key : (rd <<< 4) ||| (rs1 &&& 0x0F) = 16 * rd + rs1 % 16 := by
    rw [h15]
    have h4 := shiftLeft_lor_eq_add 4 rd (rs1 % 16) (lt_of_lt_of_le hlt (by norm_num))
    norm_num at h4
    exact h4
  rw [key, Nat.mod_eq_of_lt (by omega)]

theorem nibble_hi (rd r : Nat) (h1 : rd < 16) (h2 : r < 16) :
    ((16 * rd + r) >>> 4) &&& 15 = rd := by
  rw [shiftRight_four, land_fifteen]
  omega

theorem shiftLeft_four_byte (rd : Nat) (h : rd < 16) :
    (rd <<< 4) % 256 = 16 * rd := by
  have h4 := Nat.shiftLeft_eq rd 4
  norm_num at h4
  rw [h4, Nat.mul_comm, Nat.mod_eq_of_lt (by omega)]

/-- Every type found in the table by opcode search is found again: the
table as a whole round-trips opcode lookups of its own rows. -/
theorem table_row_opcode_lookup (e : TableEntry) (he : e ∈ instruction_table) :
    lookupByOpcode e.opcode = some e := by
  fin_cases he <;> rfl

/-- A row found by type search is a table row whose type matches. -/
theorem lookupByType_spec (t : InstructionType) (e : TableEntry)
    (h : lookupByType t = some e) :
    e ∈ instruction_table ∧ e.itype = t := by
  refine ⟨List.mem_of_find?_eq_some h, ?_⟩
  have hp := List.find?_some h
  simpa using hp

/-! ## C1: codec round trip -/

/-- C1 counterexample: the HLT instruction is in the table with the
system format, and a destination register index of 1 fits in 4 bits, yet
encoding and decoding it loses the destination register (the system
format encodes only the opcode byte), so the round trip does not preserve
all register fields as the claim states. -/
theorem encode_decode_drops_fields_counterexample :
    (lookupByType (DecodedInstruction.type { zeroInst with type := .HLT, format := .S, rd := 1 })).isSome = true ∧
    (∀ e, lookupByType InstructionType.HLT = some e → e.format = InstructionFormat.S) ∧
    { zeroInst with type := .HLT, format := .S, rd := 1 }.rd < 16 ∧
    (decode_instruction
      (encode_instruction { zeroInst with type := .HLT, format := .S, rd := 1 } (fun _ => 0)).2 0).rd
      ≠ { zeroInst with type := .HLT, format := .S, rd := 1 }.rd := by
  refine ⟨by decide, ?_, by decide, by decide⟩
  intro e he
  have : e = ⟨0x14, .HLT, .S, "hlt"⟩ := by
    have h0 : lookupByType InstructionType.HLT = some ⟨0x14, .HLT, .S, "hlt"⟩ := by rfl
    rw [h0] at he
    exact (Option.some.inj he).symm
  rw [this]

/-- C1 (amended): for an instruction whose type is in the table, whose
format agrees with the table row, and whose register indices fit in
4 bits, encode followed by decode preserves the type and format always,
and preserves exactly the fields its format encodes: destination and both
sources for the R and M formats, the address for the M format, and the
destination and immediate for the I and J formats (the S format encodes
the opcode alone). -/
theorem encode_decode_roundtrip (inst : DecodedInstruction) (e : TableEntry)
    (he : lookupByType inst.type = some e)
    (hfmt : inst.format = e.format)
    (hrd : inst.rd < 16) (hrs1 : inst.rs1 < 16) (hrs2 : inst.rs2 < 16)
    (himm : inst.imm < U64) (haddr : inst.address < U64) (buf : Nat → Nat) :
    (decode_instruction (encode_instruction inst buf).2 0).type = inst.type ∧
    (decode_instruction (encode_instruction inst buf).2 0).format = inst.format ∧
    (inst.format = .R ∨ inst.format = .M →
      (decode_instruction (encode_instruction inst buf).2 0).rd = inst.rd ∧
      (decode_instruction (encode_instruction inst buf).2 0).rs1 = inst.rs1 ∧
      (decode_instruction (encode_instruction inst buf).2 0).rs2 = inst.rs2) ∧
    (inst.format = .M →
      (decode_instruction (encode_instruction inst buf).2 0).address = inst.address) ∧
    (inst.format = .I ∨ inst.format = .J →
      (decode_instruction (encode_instruction inst buf).2 0).rd = inst.rd ∧
      (decode_instruction (encode_instruction inst buf).2 0).imm = inst.imm) := by
  obtain ⟨hmem, hit⟩ := lookupByType_spec _ _ he
  have hop := table_row_opcode_lookup e hmem
  have h64 : (256:Nat) ^ 8 = U64 := by norm_num [U64]
  rcases hf : e.format with _ | _ | _ | _ | _ <;> rw [hf] at hfmt
  -- FORMAT_R
  · simp only [encode_instruction, he, hfmt]
    have hb0 : (upd (upd (upd buf 0 e.opcode) 1
        (((inst.rd <<< 4) ||| (inst.rs1 &&& 0x0F)) % 256)) 2 ((inst.rs2 <<< 4) % 256)) 0
        = e.opcode := by
      rw [upd_ne _ _ _ _ (by omega), upd_ne _ _ _ _ (by omega), upd_same]
    have hb1 : (upd (upd (upd buf 0 e.opcode) 1
        (((inst.rd <<< 4) ||| (inst.rs1 &&& 0x0F)) % 256)) 2 ((inst.rs2 <<< 4) % 256)) (0 + 1)
        = 16 * inst.rd + inst.rs1 % 16 := by
      rw [upd_ne _ _ _ _ (by omega), upd_same, nibble_byte_round _ _ hrd]
    have hb2 : (upd (upd (upd buf 0 e.opcode) 1
        (((inst.rd <<< 4) ||| (inst.rs1 &&& 0x0F)) % 256)) 2 ((inst.rs2 <<< 4) % 256)) (0 + 2)
        = 16 * inst.rs2 := by
      rw [upd_same, shiftLeft_four_byte _ hrs2]
    simp only [decode_instruction, hb0, hop, hf, hb1, hb2]
    simp
    refine ⟨hit, ?_, ?_, ?_⟩
    · rw [nibble_hi _ _ hrd (Nat.mod_lt _ (by norm_num))]
    · rw [land_fifteen]
      omega
    · have h2 := nibble_hi inst.rs2 0 hrs2 (by norm_num)
      simpa using h2
  -- FORMAT_I
  · simp only [encode_instruction, he, hfmt]
    have hb0 : writeLE (upd (upd buf 0 e.opcode) 1 ((inst.rd <<< 4) % 256)) 2 8 inst.imm 0
        = e.opcode := by
      rw [writeLE_lt _ _ _ _ _ (by omega), upd_ne _ _ _ _ (by omega), upd_same]
    have hb1 : writeLE (upd (upd buf 0 e.opcode) 1 ((inst.rd <<< 4) % 256)) 2 8 inst.imm (0 + 1)
        = 16 * inst.rd := by
      rw [writeLE_lt _ _ _ _ _ (by omega), upd_same, shiftLeft_four_byte _ hrd]
    have hb8 : readLE (writeLE (upd (upd buf 0 e.opcode) 1 ((inst.rd <<< 4) % 256)) 2 8 inst.imm)
        (0 + 2) 8 = inst.imm := by
      rw [show (0:Nat) + 2 = 2 from rfl, readLE_writeLE, h64, Nat.mod_eq_of_lt himm]
    simp only [decode_instruction, hb0, hop, hf, hb1, hb8]
    simp
    refine ⟨hit, ?_⟩
    have h2 := nibble_hi inst.rd 0 hrd (by norm_num)
    simpa using h2
  -- FORMAT_M
  · simp only [encode_instruction, he, hfmt]
    have hb0 : writeLE (upd (upd (upd buf 0 e.opcode) 1
        (((inst.rd <<< 4) ||| (inst.rs1 &&& 0x0F)) % 256)) 2 ((inst.rs2 <<< 4) % 256)) 3 8
        inst.address 0 = e.opcode := by
      rw [writeLE_lt _ _ _ _ _ (by omega), upd_ne _ _ _ _ (by omega),
        upd_ne _ _ _ _ (by omega), upd_same]
    have hb1 : writeLE (upd (upd (upd buf 0 e.opcode) 1
        (((inst.rd <<< 4) ||| (inst.rs1 &&& 0x0F)) % 256)) 2 ((inst.rs2 <<< 4) % 256)) 3 8
        inst.address (0 + 1) = 16 * inst.rd + inst.rs1 % 16 := by
      rw [writeLE_lt _ _ _ _ _ (by omega), upd_ne _ _ _ _ (by omega), upd_same,
        nibble_byte_round _ _ hrd]
    have hb2 : writeLE (upd (upd (upd buf 0 e.opcode) 1
        (((inst.rd <<< 4) ||| (inst.rs1 &&& 0x0F)) % 256)) 2 ((inst.rs2 <<< 4) % 256)) 3 8
        inst.address (0 + 2) = 16 * inst.rs2 := by
      rw [writeLE_lt _ _ _ _ _ (by omega), upd_same, shiftLeft_four_byte _ hrs2]
    have hb8 : readLE (writeLE (upd (upd (upd buf 0 e.opcode) 1
        (((inst.rd <<< 4) ||| (inst.rs1 &&& 0x0F)) % 256)) 2 ((inst.rs2 <<< 4) % 256)) 3 8
        inst.address) (0 + 3) 8 = inst.address := by
      rw [show (0:Nat) + 3 = 3 from rfl, readLE_writeLE, h64, Nat.mod_eq_of_lt haddr]
    simp only [decode_instruction, hb0, hop, hf, hb1, hb2, hb8]
    simp
    refine ⟨hit, ?_, ?_, ?_⟩
    · rw [nibble_hi _ _ hrd (Nat.mod_lt _ (by norm_num))]
    · rw [land_fifteen]
      omega
    · have h2 := nibble_hi inst.rs2 0 hrs2 (by norm_num)
      simpa using h2
  -- FORMAT_J
  · simp only [encode_instruction, he, hfmt]
    have hb0 : writeLE (upd (upd buf 0 e.opcode) 1 ((inst.rd <<< 4) % 256)) 2 8 inst.imm 0
        = e.opcode := by
      rw [writeLE_lt _ _ _ _ _ (by omega), upd_ne _ _ _ _ (by omega), upd_same]
    have hb1 : writeLE (upd (upd buf 0 e.opcode) 1 ((inst.rd <<< 4) % 256)) 2 8 inst.imm (0 + 1)
        = 16 * inst.rd := by
      rw [writeLE_lt _ _ _ _ _ (by omega), upd_same, shiftLeft_four_byte _ hrd]
    have hb8 : readLE (writeLE (upd (upd buf 0 e.opcode) 1 ((inst.rd <<< 4) % 256)) 2 8 inst.imm)
        (0 + 2) 8 = inst.imm := by
      rw [show (0:Nat) + 2 = 2 from rfl, readLE_writeLE, h64, Nat.mod_eq_of_lt himm]
    simp only [decode_instruction, hb0, hop, hf, hb1, hb8]
    simp
    refine ⟨hit, ?_⟩
    have h2 := nibble_hi inst.rd 0 hrd (by norm_num)
    simpa using h2
  -- FORMAT_S
  · simp only [encode_instruction, he, hfmt]
    have hb0 : upd buf 0 e.opcode 0 = e.opcode := upd_same _ _ _
    simp only [decode_instruction, hb0, hop, hf]
    simp
    exact hit

/-- C1 witness: a concrete R-format ADD instruction satisfies all the
hypotheses, and the round trip preserves its fields. -/
theorem encode_decode_roundtrip_witness :
    (lookupByType ({ zeroInst with type := .ADD, format := .R, rd := 3, rs1 := 5, rs2 := 7 } :
        DecodedInstruction).type = some ⟨0x01, .ADD, .R, "add"⟩) ∧
    (decode_instruction
        (encode_instruction { zeroInst with type := .ADD, format := .R, rd := 3, rs1 := 5, rs2 := 7 }
          (fun _ => 99)).2 0).type = InstructionType.ADD := by
  constructor
  · rfl
  · have h := encode_decode_roundtrip
      { zeroInst with type := .ADD, format := .R, rd := 3, rs1 := 5, rs2 := 7 }
      ⟨0x01, .ADD, .R, "add"⟩ rfl rfl (by decide) (by decide) (by decide)
      (by norm_num [zeroInst, U64]) (by norm_num [zeroInst, U64]) (fun _ => 99)
    exact h.1

/-! ## C7: commit retires only head entries, in order -/

/-- The ready run is at most the fuel. -/
theorem headRunLen_le (rob : Nat → ROBEntry) (size : Nat) :
    ∀ fuel start, headRunLen rob size fuel start ≤ fuel := by
  intro fuel
  induction fuel with
  | zero =>
      intro start
      simp [headRunLen]
  | succ fuel ih =>
      intro start
      rw [headRunLen]
      split
      · have := ih ((start + 1) % size)
        omega
      · omega

/-- The ready run only looks at the entries it scans. -/
theorem headRunLen_congr (rob1 rob2 : Nat → ROBEntry) (size : Nat) :
    ∀ fuel start, start < size →
      (∀ i, i < fuel → rob1 ((start + i) % size) = rob2 ((start + i) % size)) →
      headRunLen rob1 size fuel start = headRunLen rob2 size fuel start := by
  intro fuel
  induction fuel with
  | zero =>
      intro start _ _
      rfl
  | succ fuel ih =>
      intro start hs h
      have h0 : rob1 start = rob2 start := by
        have := h 0 (by omega)
        rwa [Nat.add_zero, Nat.mod_eq_of_lt hs] at this
      rw [headRunLen, headRunLen, h0]
      split
      · have hrec := ih ((start + 1) % size)
          (Nat.mod_lt _ (by omega)) ?_
        · rw [hrec]
        · intro i hi
          rw [Nat.mod_add_mod]
          have := h (i + 1) (by omega)
          rw [show start + 1 + i = start + (i + 1) from by omega]
          exact this
      · rfl

/-- An index strictly inside the scan window differs from the head. -/
theorem mod_window_ne (head size i : Nat) (hh : head < size) (hi : i + 1 < size) :
    (head + 1 + i) % size ≠ head := by
  intro h
  rcases Nat.lt_or_ge (head + 1 + i) size with hlt | hge
  · rw [Nat.mod_eq_of_lt hlt] at h
    omega
  · have hlt2 : head + 1 + i - size < size := by omega
    rw [Nat.mod_eq_sub_mod hge, Nat.mod_eq_of_lt hlt2] at h
    omega

/-- Full characterisation of the commit loop with `fuel` iterations left:
it retires exactly the run of busy-and-ready entries from the head, in
head order, and touches nothing else. -/
theorem commitAux_spec :
    ∀ fuel (t : TomasuloCPU), fuel ≤ t.rob_size → t.rob_head < t.rob_size →
      (commitAux fuel t).rob_head
          = (t.rob_head + headRunLen t.rob t.rob_size fuel t.rob_head) % t.rob_size ∧
      (commitAux fuel t).instructions_committed
          = t.instructions_committed + headRunLen t.rob t.rob_size fuel t.rob_head ∧
      (∀ i, i < headRunLen t.rob t.rob_size fuel t.rob_head →
        (t.rob ((t.rob_head + i) % t.rob_size)).busy = true ∧
        (t.rob ((t.rob_head + i) % t.rob_size)).ready = true) ∧
      (∀ i, i < headRunLen t.rob t.rob_size fuel t.rob_head →
        ((commitAux fuel t).rob ((t.rob_head + i) % t.rob_size)).busy = false) ∧
      (∀ j, (∀ i, i < headRunLen t.rob t.rob_size fuel t.rob_head →
          (t.rob_head + i) % t.rob_size ≠ j) →
        (commitAux fuel t).rob j = t.rob j) ∧
      (commitAux fuel t).registers
          = commitRegs t.registers
              ((List.range (headRunLen t.rob t.rob_size fuel t.rob_head)).map
                (fun i => t.rob ((t.rob_head + i) % t.rob_size))) ∧
      (commitAux fuel t).reg_status
          = commitStatus t.reg_status
              ((List.range (headRunLen t.rob t.rob_size fuel t.rob_head)).map
                (fun i => t.rob ((t.rob_head + i) % t.rob_size))) ∧
      (commitAux fuel t).rob_tail = t.rob_tail ∧
      (commitAux fuel t).rs = t.rs ∧
      (commitAux fuel t).rob_size = t.rob_size := by
  intro fuel
  induction fuel with
  | zero =>
      intro t hf hh
      simp [commitAux, headRunLen, Nat.mod_eq_of_lt hh, commitRegs, commitStatus]
  | succ fuel ih =>
      intro t hf hh
      have hsize : 0 < t.rob_size := by omega
      by_cases hbr : ((t.rob t.rob_head).busy && (t.rob t.rob_head).ready) = true
      · -- the head entry retires and the loop continues
        have hklen : headRunLen t.rob t.rob_size (fuel + 1) t.rob_head
            = 1 + headRunLen t.rob t.rob_size fuel ((t.rob_head + 1) % t.rob_size) := by
          rw [headRunLen, if_pos hbr]
        have hstep : commitAux (fuel + 1) t = commitAux fuel
            { t with
              registers := if (t.rob t.rob_head).exception then t.registers
                else upd t.registers (t.rob t.rob_head).dest (t.rob t.rob_head).result
              reg_status := if (t.rob t.rob_head).exception then t.reg_status
                else upd t.reg_status (t.rob t.rob_head).dest 0
              rob := upd t.rob t.rob_head { t.rob t.rob_head with busy := false }
              rob_head := (t.rob_head + 1) % t.rob_size
              instructions_committed := t.instructions_committed + 1 } := by
          simp only [commitAux]
          rw [if_pos hbr]
          by_cases hex : (t.rob t.rob_head).exception = true
          · simp [hex]
          · simp [hex]
        rw [hstep, hklen]
        set t2 : TomasuloCPU :=
            { t with
              registers := if (t.rob t.rob_head).exception then t.registers
                else upd t.registers (t.rob t.rob_head).dest (t.rob t.rob_head).result
              reg_status := if (t.rob t.rob_head).exception then t.reg_status
                else upd t.reg_status (t.rob t.rob_head).dest 0
              rob := upd t.rob t.rob_head { t.rob t.rob_head with busy := false }
              rob_head := (t.rob_head + 1) % t.rob_size
              instructions_committed := t.instructions_committed + 1 } with ht2
        have h2rob : t2.rob = upd t.rob t.rob_head { t.rob t.rob_head with busy := false } := rfl
        have h2head : t2.rob_head = (t.rob_head + 1) % t.rob_size := rfl
        have h2size : t2.rob_size = t.rob_size := rfl
        have h2tail : t2.rob_tail = t.rob_tail := rfl
        have h2rs : t2.rs = t.rs := rfl
        have h2comm : t2.instructions_committed = t.instructions_committed + 1 := rfl
        have h2regs : t2.registers = if (t.rob t.rob_head).exception then t.registers
            else upd t.registers (t.rob t.rob_head).dest (t.rob t.rob_head).result := rfl
        have h2st : t2.reg_status = if (t.rob t.rob_head).exception then t.reg_status
            else upd t.reg_status (t.rob t.rob_head).dest 0 := rfl
        have hh2 : t2.rob_head < t2.rob_size := by
          rw [h2head, h2size]
          exact Nat.mod_lt _ hsize
        have hidx : ∀ i : Nat, ((t.rob_head + 1) % t.rob_size + i) % t.rob_size
            = (t.rob_head + 1 + i) % t.rob_size := by
          intro i
          exact Nat.mod_add_mod _ _ _
        have hne : ∀ i, i < fuel → (t.rob_head + 1 + i) % t.rob_size ≠ t.rob_head := by
          intro i hi
          exact mod_window_ne _ _ _ hh (by omega)
        have ht2i : ∀ i, i < fuel →
            t2.rob (((t.rob_head + 1) % t.rob_size + i) % t.rob_size)
              = t.rob ((t.rob_head + 1 + i) % t.rob_size) := by
          intro i hi
          rw [hidx, h2rob, upd_ne _ _ _ _ (hne i hi)]
        have hk2 : headRunLen t2.rob t2.rob_size fuel t2.rob_head
            = headRunLen t.rob t.rob_size fuel ((t.rob_head + 1) % t.rob_size) := by
          rw [h2size, h2head]
          exact headRunLen_congr t2.rob t.rob t.rob_size fuel
            ((t.rob_head + 1) % t.rob_size) (Nat.mod_lt _ hsize)
            (fun i hi => by rw [hidx i, h2rob, upd_ne _ _ _ _ (hne i hi)])
        have hkle : headRunLen t.rob t.rob_size fuel ((t.rob_head + 1) % t.rob_size) ≤ fuel :=
          headRunLen_le _ _ _ _
        obtain ⟨ih1, ih2, ih3, ih4, ih5, ih6, ih7, ih8, ih9, ih10⟩ :=
          ih t2 (by rw [h2size]; omega) hh2
        simp only [hk2, h2head, h2size, h2comm, h2tail, h2rs] at ih1 ih2 ih3 ih4 ih5 ih6 ih7 ih8 ih9 ih10
        set kr := headRunLen t.rob t.rob_size fuel ((t.rob_head + 1) % t.rob_size) with hkr
        have hmap : ((List.range kr).map
              (fun i => t2.rob (((t.rob_head + 1) % t.rob_size + i) % t.rob_size)))
            = (List.range kr).map
              (fun i => t.rob ((t.rob_head + 1 + i) % t.rob_size)) := by
          apply List.map_congr_left
          intro i hi
          have hilt := List.mem_range.mp hi
          exact ht2i i (by omega)
        have hhead0 : (t.rob_head + 0) % t.rob_size = t.rob_head := by
          rw [Nat.add_zero, Nat.mod_eq_of_lt hh]
        have hlist : (List.range (1 + kr)).map
              (fun i => t.rob ((t.rob_head + i) % t.rob_size))
            = t.rob t.rob_head ::
              (List.range kr).map (fun i => t.rob ((t.rob_head + 1 + i) % t.rob_size)) := by
          rw [show 1 + kr = kr + 1 from by omega, List.range_succ_eq_map]
          simp only [List.map_cons, List.map_map]
          congr 1
          · rw [hhead0]
          · apply List.map_congr_left
            intro i _
            simp only [Function.comp]
            rw [show t.rob_head + (i + 1) = t.rob_head + 1 + i from by omega]
        have hbrc := hbr
        simp only [Bool.and_eq_true] at hbrc
        obtain ⟨hbr1, hbr2⟩ := hbrc
        refine ⟨?_, ?_, ?_, ?_, ?_, ?_, ?_, ?_, ?_, ?_⟩
        · rw [ih1, hidx kr, show t.rob_head + 1 + kr = t.rob_head + (1 + kr) from by omega]
        · rw [ih2]
          omega
        · intro i hi
          cases i with
          | zero =>
              rw [hhead0]
              exact ⟨hbr1, hbr2⟩
          | succ j =>
              have hjlt : j < kr := by omega
              have h3 := ih3 j hjlt
              rw [hidx j, upd_ne _ _ _ _ (hne j (by omega))] at h3
              rw [show t.rob_head + (j + 1) = t.rob_head + 1 + j from by omega]
              exact h3
        · intro i hi
          cases i with
          | zero =>
              rw [hhead0]
              have h5 := ih5 t.rob_head ?_
              · rw [h5, upd_same]
              · intro i hilt
                rw [hidx i]
                exact hne i (by omega)
          | succ j =>
              have hjlt : j < kr := by omega
              have h4 := ih4 j hjlt
              rw [hidx j] at h4
              rw [show t.rob_head + (j + 1) = t.rob_head + 1 + j from by omega]
              exact h4
        · intro j hj
          have hj0 : t.rob_head ≠ j := by
            have := hj 0 (by omega)
            rwa [hhead0] at this
          have h5 := ih5 j ?_
          · rw [h5, upd_ne _ _ _ _ (fun h => hj0 h.symm)]
          · intro i hilt
            rw [hidx i]
            have := hj (i + 1) (by omega)
            rwa [show t.rob_head + (i + 1) = t.rob_head + 1 + i from by omega] at this
        · rw [ih6, hmap, hlist]
          simp only [commitRegs]
        · rw [ih7, hmap, hlist]
          simp only [commitStatus]
        · exact ih8
        · exact ih9
        · rw [ih10]
      · have hklen : headRunLen t.rob t.rob_size (fuel + 1) t.rob_head = 0 := by
          rw [headRunLen, if_neg hbr]
        have hstep : commitAux (fuel + 1) t = t := by
          simp only [commitAux]
          rw [if_neg hbr]
        rw [hklen, hstep]
        simp [Nat.mod_eq_of_lt hh, commitRegs, commitStatus]

/-- C7 counterexample: in the spec's own dependency-chain scenario
(I1: r1 := r2+r3, I2: r4 := r1+r1 dependent, I3: r5 := r2+r2
independent), the writeback stage delivers I3's result to the first
not-ready reorder-buffer entry, which is I2's, so commit writes I3's
value 10 to I2's destination r4 (instead of 24) while I2's own result
never reaches the register file (r5 stays 0, I3's entry stays pending):
results do not reach the register file in issue order. -/
theorem tomasulo_commit_claim_counterexample :
    tomasuloDemoFinal.registers 1 = 12 ∧
    tomasuloDemoFinal.registers 4 = 10 ∧
    tomasuloDemoFinal.registers 5 = 0 ∧
    tomasuloDemoFinal.instructions_committed = 2 ∧
    (tomasuloDemoFinal.rob 2).busy = true ∧
    (tomasuloDemoFinal.rob 2).ready = false := by
  decide

/-- C7 (amended): `tomasulo_commit` only ever retires the reorder-buffer
head entry and advances the head: it commits exactly the run of
busy-and-ready entries starting at the head, in head order, writing each
non-exception entry's result to the register file in that order and
leaving every other entry, the tail, and the stations untouched.  ROB
entries therefore retire strictly in allocation order, but because
writeback routes a result to the first not-ready entry rather than to
the producing instruction's own entry, a later instruction's result
value can be committed under an earlier instruction's destination. -/
theorem tomasulo_commit_inorder (t : TomasuloCPU) (hh : t.rob_head < t.rob_size) :
    (tomasulo_commit t).rob_head
        = (t.rob_head + headRunLen t.rob t.rob_size t.rob_size t.rob_head) % t.rob_size ∧
    (tomasulo_commit t).instructions_committed
        = t.instructions_committed + headRunLen t.rob t.rob_size t.rob_size t.rob_head ∧
    (∀ i, i < headRunLen t.rob t.rob_size t.rob_size t.rob_head →
      (t.rob (robIdx t i)).busy = true ∧ (t.rob (robIdx t i)).ready = true) ∧
    (∀ i, i < headRunLen t.rob t.rob_size t.rob_size t.rob_head →
      ((tomasulo_commit t).rob (robIdx t i)).busy = false) ∧
    (∀ j, (∀ i, i < headRunLen t.rob t.rob_size t.rob_size t.rob_head → robIdx t i ≠ j) →
      (tomasulo_commit t).rob j = t.rob j) ∧
    (tomasulo_commit t).registers
        = commitRegs t.registers (headEntries t (headRunLen t.rob t.rob_size t.rob_size t.rob_head)) ∧
    (tomasulo_commit t).reg_status
        = commitStatus t.reg_status (headEntries t (headRunLen t.rob t.rob_size t.rob_size t.rob_head)) ∧
    (tomasulo_commit t).rob_tail = t.rob_tail ∧
    (tomasulo_commit t).rs = t.rs := by
  have h := commitAux_spec t.rob_size t (le_refl _) hh
  obtain ⟨h1, h2, h3, h4, h5, h6, h7, h8, h9, _⟩ := h
  exact ⟨h1, h2, h3, h4, h5, h6, h7, h8, h9⟩

/-- C7 witness: the amended commit characterisation applied to the
concrete scenario state before the commit pass. -/
theorem tomasulo_commit_inorder_witness :
    tomasuloDemoPre.rob_head < tomasuloDemoPre.rob_size ∧
    (tomasulo_commit tomasuloDemoPre).rob_head
        = (tomasuloDemoPre.rob_head +
            headRunLen tomasuloDemoPre.rob tomasuloDemoPre.rob_size
              tomasuloDemoPre.rob_size tomasuloDemoPre.rob_head) % tomasuloDemoPre.rob_size :=
  ⟨by decide, (tomasulo_commit_inorder tomasuloDemoPre (by decide)).1⟩

/-! ## C9: cache geometry is not validated at construction -/

/-! ## C4: victim selection on a miss -/

/-- The victim loop returns the least invalid way when one exists in the
remaining range and every way below the range start is valid. -/
theorem victimGo_invalid (valid : Nat → Bool) (lru : Nat → Nat)
    (fuel : Nat) :
    ∀ i victim : Nat, ∀ minLru : Option Nat, ∀ k : Nat,
      i ≤ k → k < i + fuel → valid k = false →
      (∀ j, i ≤ j → j < k → valid j = true) →
      victimGo valid lru fuel i victim minLru = k := by
  induction fuel with
  | zero =>
      intro i victim minLru k hk1 hk2 _ _
      omega
  | succ fuel ih =>
      intro i victim minLru k hk1 hk2 hkinv hkleast
      by_cases hvi : valid i = false
      · have hik : k = i := by
          by_contra hne
          have hlt : i < k := by omega
          have := hkleast i (le_refl i) hlt
          rw [this] at hvi
          exact absurd hvi (by simp)
        simp only [victimGo, hvi, if_pos]
        omega
      · have hvi2 : valid i = true := by
          cases h : valid i with
          | false => exact absurd h hvi
          | true => rfl
        have hik : i < k := by
          rcases Nat.lt_or_ge i k with h | h
          · exact h
          · have : k = i := by omega
            rw [this] at hkinv
            rw [hkinv] at hvi2
            cases hvi2
        simp only [victimGo, hvi2]
        have hfalse : (true = false) = False := by simp
        rw [if_neg (by simp)]
        split
        · exact ih (i + 1) i (some (lru i)) k (by omega) (by omega) hkinv
            (fun j h1 h2 => hkleast j (by omega) h2)
        · exact ih (i + 1) victim minLru k (by omega) (by omega) hkinv
            (fun j h1 h2 => hkleast j (by omega) h2)

/-- The victim loop returns the first way attaining the minimum LRU stamp
when every way in the remaining range is valid, given the loop invariant
for the already scanned ways. -/
theorem victimGo_argmin (valid : Nat → Bool) (lru : Nat → Nat)
    (fuel : Nat) :
    ∀ i victim : Nat, ∀ minLru : Option Nat,
      (∀ j, i ≤ j → j < i + fuel → valid j = true) →
      (minLru = none → i = 0 ∧ victim = 0) →
      (∀ m, minLru = some m → victim < i ∧ lru victim = m ∧
        (∀ j, j < i → m ≤ lru j) ∧ (∀ j, j < victim → m < lru j)) →
      0 < i + fuel →
      victimGo valid lru fuel i victim minLru < i + fuel ∧
      (∀ j, j < i + fuel →
        lru (victimGo valid lru fuel i victim minLru) ≤ lru j) ∧
      (∀ j, j < victimGo valid lru fuel i victim minLru →
        lru (victimGo valid lru fuel i victim minLru) < lru j) := by
  induction fuel with
  | zero =>
      intro i victim minLru hvalid hnone hsome hpos
      cases minLru with
      | none =>
          obtain ⟨hi, _⟩ := hnone rfl
          omega
      | some m =>
          obtain ⟨h1, h2, h3, h4⟩ := hsome m rfl
          simp only [victimGo]
          refine ⟨by omega, ?_, ?_⟩
          · intro j hj
            rw [h2]
            exact h3 j (by omega)
          · intro j hj
            rw [h2]
            exact h4 j hj
  | succ fuel ih =>
      intro i victim minLru hvalid hnone hsome hpos
      have hvi : valid i = true := hvalid i (le_refl i) (by omega)
      simp only [victimGo, hvi]
      rw [if_neg (by simp)]
      have hrange : ∀ j, i + 1 ≤ j → j < i + 1 + fuel → valid j = true :=
        fun j h1 h2 => hvalid j (by omega) (by omega)
      have harith : i + 1 + fuel = i + (fuel + 1) := by omega
      cases minLru with
      | none =>
          obtain ⟨hi0, hv0⟩ := hnone rfl
          subst hi0
          subst hv0
          simp only [if_true]
          norm_num
          have h := ih 1 0 (some (lru 0)) (by simpa using hrange)
            (by intro h; cases h)
            (by
              intro m hm
              injection hm with hm
              refine ⟨by omega, by rw [hm], ?_, ?_⟩
              · intro j hj
                have : j = 0 := by omega
                rw [this, hm]
              · intro j hj
                omega)
            (by omega)
          obtain ⟨ha, hb, hc⟩ := h
          refine ⟨by omega, ?_, hc⟩
          intro j hj
          exact hb j (by omega)
      | some m =>
          obtain ⟨h1, h2, h3, h4⟩ := hsome m rfl
          simp only []
          split
          · next hlt =>
              have hlt2 : lru i < m := by simpa using hlt
              have h := ih (i + 1) i (some (lru i)) hrange (by intro h; cases h)
                (by
                  intro m2 hm2
                  injection hm2 with hm2
                  refine ⟨by omega, by rw [hm2], ?_, ?_⟩
                  · intro j hj
                    rcases Nat.lt_or_ge j i with hji | hji
                    · rw [← hm2]
                      exact le_of_lt (lt_of_lt_of_le hlt2 (h3 j hji))
                    · have : j = i := by omega
                      rw [this, hm2]
                  · intro j hj
                    rw [← hm2]
                    exact lt_of_lt_of_le hlt2 (h3 j hj))
                (by omega)
              rw [harith] at h
              exact h
          · next hge =>
              have hge2 : ¬ lru i < m := by simpa using hge
              have h := ih (i + 1) victim (some m) hrange (by intro h; cases h)
                (by
                  intro m2 hm2
                  injection hm2 with hm2
                  subst hm2
                  refine ⟨by omega, h2, ?_, h4⟩
                  intro j hj
                  rcases Nat.lt_or_ge j i with hji | hji
                  · exact h3 j hji
                  · have : j = i := by omega
                    rw [this]
                    omega)
                (by omega)
              rw [harith] at h
              exact h

/-- C4 counterexample: a fully-associative cache of two ways; after one
miss fills way 0, a second miss to a different line finds way 1 invalid
(the first invalid way), yet the code evicts and reinstalls way 0,
leaving way 1 invalid and way 0 holding the new tag. -/
theorem cache_miss_victim_counterexample :
    isHit (cacheStep (cache_create .FULL_ASSOC 2 1 2) 0 false) 1 = false ∧
    (cacheStep (cache_create .FULL_ASSOC 2 1 2) 0 false).valid 0 0 = true ∧
    (cacheStep (cache_create .FULL_ASSOC 2 1 2) 0 false).valid 0 1 = false ∧
    (cacheStep (cacheStep (cache_create .FULL_ASSOC 2 1 2) 0 false) 1 false).valid 0 1 = false ∧
    (cacheStep (cacheStep (cache_create .FULL_ASSOC 2 1 2) 0 false) 1 false).tags 0 0 = 1 := by
  decide

/-- C4 (amended): on every miss the victim way is as the code chooses it:
way 0 for direct-mapped and fully-associative caches (with no
invalid-first search), and for set-associative caches the first invalid
way if one exists, otherwise the first way attaining the minimum LRU
stamp; the new tag is then installed with the valid bit set and the call
returns the fixed miss penalty. -/
theorem cache_access_miss_spec (c : Cache) (addr : Nat) (w : Bool)
    (hassoc : 0 < c.associativity)
    (hmiss : isHit c addr = false) :
    (cache_access c addr w).2 = c.miss_penalty ∧
    (cache_access c addr w).1.misses = c.misses + 1 ∧
    (cache_access c addr w).1.hits = c.hits ∧
    (cache_access c addr w).1.valid (cacheSetIndex c addr) (victimSelect c (cacheSetIndex c addr)) = true ∧
    (cache_access c addr w).1.tags (cacheSetIndex c addr) (victimSelect c (cacheSetIndex c addr)) = cacheTag c addr ∧
    (c.type ≠ CacheType.SET_ASSOC → victimSelect c (cacheSetIndex c addr) = 0) ∧
    (c.type = CacheType.SET_ASSOC →
      ((∃ j, j < c.associativity ∧ c.valid (cacheSetIndex c addr) j = false) →
        victimSelect c (cacheSetIndex c addr) < c.associativity ∧
        c.valid (cacheSetIndex c addr) (victimSelect c (cacheSetIndex c addr)) = false ∧
        (∀ j, j < victimSelect c (cacheSetIndex c addr) →
          c.valid (cacheSetIndex c addr) j = true)) ∧
      ((∀ j, j < c.associativity → c.valid (cacheSetIndex c addr) j = true) →
        victimSelect c (cacheSetIndex c addr) < c.associativity ∧
        (∀ j, j < c.associativity →
          c.lru_counters (cacheSetIndex c addr * c.associativity +
            victimSelect c (cacheSetIndex c addr)) ≤
          c.lru_counters (cacheSetIndex c addr * c.associativity + j)) ∧
        (∀ j, j < victimSelect c (cacheSetIndex c addr) →
          c.lru_counters (cacheSetIndex c addr * c.associativity +
            victimSelect c (cacheSetIndex c addr)) <
          c.lru_counters (cacheSetIndex c addr * c.associativity + j)))) := by
  have hnone : findHitWay c.valid c.tags c.associativity
      (cacheSetIndex c addr) (cacheTag c addr) = none := by
    cases h : findHitWay c.valid c.tags c.associativity
        (cacheSetIndex c addr) (cacheTag c addr) with
    | none => rfl
    | some i =>
        rw [isHit, h] at hmiss
        cases hmiss
  refine ⟨?_, ?_, ?_, ?_, ?_, ?_, ?_⟩
  · simp only [cache_access, hnone]
    split <;> simp
  · simp only [cache_access, hnone]
    split <;> simp
  · simp only [cache_access, hnone]
    split <;> simp
  · simp only [cache_access, hnone]
    split <;> simp [victimSelect, upd2, upd]
  · simp only [cache_access, hnone]
    split <;> simp [victimSelect, upd2, upd]
  · intro hty
    simp [victimSelect, hty]
  · intro hty
    constructor
    · intro hex
      obtain ⟨j0, hj0, hj0inv⟩ := hex
      have hleast : ∃ k, k < c.associativity ∧ c.valid (cacheSetIndex c addr) k = false ∧
          ∀ j, j < k → c.valid (cacheSetIndex c addr) j = true := by
        have hex2 : ∃ j, c.valid (cacheSetIndex c addr) j = false := ⟨j0, hj0inv⟩
        refine ⟨Nat.find hex2, ?_, Nat.find_spec hex2, ?_⟩
        · have := Nat.find_min' hex2 hj0inv
          omega
        · intro j hj
          have := Nat.find_min hex2 hj
          cases h : c.valid (cacheSetIndex c addr) j with
          | false => exact absurd h this
          | true => rfl
      obtain ⟨k, hk, hkinv, hkleast⟩ := hleast
      have hgo := victimGo_invalid (c.valid (cacheSetIndex c addr))
        (fun i => c.lru_counters (cacheSetIndex c addr * c.associativity + i))
        c.associativity 0 0 none k (by omega) (by omega) hkinv
        (fun j _ h2 => hkleast j h2)
      have hv : victimSelect c (cacheSetIndex c addr) = k := by
        rw [victimSelect, if_pos hty]
        exact hgo
      rw [hv]
      exact ⟨hk, hkinv, hkleast⟩
    · intro hall
      have hgo := victimGo_argmin (c.valid (cacheSetIndex c addr))
        (fun i => c.lru_counters (cacheSetIndex c addr * c.associativity + i))
        c.associativity 0 0 none
        (fun j _ h2 => hall j (by omega))
        (fun _ => ⟨rfl, rfl⟩)
        (by intro m hm; cases hm)
        (by omega)
      have hv : victimSelect c (cacheSetIndex c addr) = victimGo
          (c.valid (cacheSetIndex c addr))
          (fun i => c.lru_counters (cacheSetIndex c addr * c.associativity + i))
          c.associativity 0 0 none := by
        rw [victimSelect, if_pos hty]
      rw [hv]
      obtain ⟨hg1, hg2, hg3⟩ := hgo
      exact ⟨by omega, fun j hj => hg2 j (by omega), fun j hj => hg3 j hj⟩

/-- C4 witness: a concrete set-associative miss satisfies the hypotheses
and the spec. -/
theorem cache_access_miss_spec_witness :
    (0 < (cache_create .SET_ASSOC 4 2 2).associativity) ∧
    (isHit (cache_create .SET_ASSOC 4 2 2) 0 = false) ∧
    (cache_access (cache_create .SET_ASSOC 4 2 2) 0 false).2
      = (cache_create .SET_ASSOC 4 2 2).miss_penalty := by
  refine ⟨by decide, by decide, ?_⟩
  exact (cache_access_miss_spec (cache_create .SET_ASSOC 4 2 2) 0 false
    (by decide) (by decide)).1

/-! ## C5: repeated hits and aliasing evictions -/

/-- One access never changes the cache geometry fields. -/
theorem cacheStep_fields (c : Cache) (a : Nat) (w : Bool) :
    (cacheStep c a w).type = c.type ∧
    (cacheStep c a w).line_size = c.line_size ∧
    (cacheStep c a w).num_sets = c.num_sets ∧
    (cacheStep c a w).associativity = c.associativity := by
  rcases hfind : findHitWay c.valid c.tags c.associativity
      (cacheSetIndex c a) (cacheTag c a) with _ | i <;>
    simp only [cacheStep, cache_access, hfind] <;>
    split <;> simp

/-- The set index only reads geometry fields. -/
theorem cacheSetIndex_congr (st c : Cache) (a : Nat)
    (hl : st.line_size = c.line_size) (hn : st.num_sets = c.num_sets) :
    cacheSetIndex st a = cacheSetIndex c a := by
  rw [cacheSetIndex, cacheSetIndex, cacheLine, cacheLine, hl, hn]

/-- The tag only reads geometry fields. -/
theorem cacheTag_congr (st c : Cache) (a : Nat)
    (hl : st.line_size = c.line_size) (hn : st.num_sets = c.num_sets) :
    cacheTag st a = cacheTag c a := by
  rw [cacheTag, cacheTag, cacheLine, cacheLine, hl, hn]

/-- What the hit scan guarantees when it finds a way. -/
theorem findHitWay_some_spec (valid : Nat → Nat → Bool) (tags : Nat → Nat → Nat)
    (assocN set tag i : Nat)
    (h : findHitWay valid tags assocN set tag = some i) :
    i < assocN ∧ valid set i = true ∧ tags set i = tag := by
  have hmem := List.mem_of_find?_eq_some h
  have hp := List.find?_some h
  simp only [Bool.and_eq_true, beq_iff_eq] at hp
  exact ⟨List.mem_range.mp hmem, hp.1, hp.2⟩

/-- A present tag is found by the hit scan. -/
theorem isHit_of_present (c : Cache) (a : Nat)
    (h : tagPresent c (cacheSetIndex c a) (cacheTag c a)) :
    isHit c a = true := by
  rw [isHit]
  cases hfind : findHitWay c.valid c.tags c.associativity
      (cacheSetIndex c a) (cacheTag c a) with
  | some i => rfl
  | none =>
      exfalso
      obtain ⟨w, hw, hv, ht⟩ := h
      have := List.find?_eq_none.mp hfind w (List.mem_range.mpr hw)
      simp [hv, ht] at this

/-- A hit leaves the tag and valid arrays and the miss counter alone. -/
theorem cacheStep_hit (c : Cache) (a : Nat) (w : Bool) (h : isHit c a = true) :
    (cacheStep c a w).tags = c.tags ∧
    (cacheStep c a w).valid = c.valid ∧
    (cacheStep c a w).misses = c.misses := by
  rw [isHit] at h
  cases hfind : findHitWay c.valid c.tags c.associativity
      (cacheSetIndex c a) (cacheTag c a) with
  | none => rw [hfind] at h; cases h
  | some i =>
      simp only [cacheStep, cache_access, hfind] <;> split <;> simp

/-- The victim way is always inside the set. -/
theorem victimSelect_lt (c : Cache) (set : Nat) (hassoc : 0 < c.associativity) :
    victimSelect c set < c.associativity := by
  rw [victimSelect]
  split
  · by_cases hex : ∃ j, j < c.associativity ∧ c.valid set j = false
    · obtain ⟨j0, hj0, hj0inv⟩ := hex
      have hex2 : ∃ j, c.valid set j = false := ⟨j0, hj0inv⟩
      have hgo := victimGo_invalid (c.valid set)
        (fun i => c.lru_counters (set * c.associativity + i))
        c.associativity 0 0 none (Nat.find hex2) (by omega)
        (by have := Nat.find_min' hex2 hj0inv; omega)
        (Nat.find_spec hex2)
        (by
          intro j _ hj
          have := Nat.find_min hex2 hj
          cases h : c.valid set j with
          | false => exact absurd h this
          | true => rfl)
      rw [hgo]
      have := Nat.find_min' hex2 hj0inv
      omega
    · push_neg at hex
      have hall : ∀ j, j < c.associativity → c.valid set j = true := by
        intro j hj
        have := hex j hj
        cases h : c.valid set j with
        | false => exact absurd h this
        | true => rfl
      have hgo := victimGo_argmin (c.valid set)
        (fun i => c.lru_counters (set * c.associativity + i))
        c.associativity 0 0 none
        (fun j _ h2 => hall j (by omega))
        (fun _ => ⟨rfl, rfl⟩)
        (by intro m hm; cases hm)
        (by omega)
      have := hgo.1
      omega
  · omega

/-- A miss installs the tag at the victim way and bumps the miss
counter. -/
theorem cacheStep_miss (c : Cache) (a : Nat) (w : Bool) (h : isHit c a = false) :
    (cacheStep c a w).valid
        = upd2 c.valid (cacheSetIndex c a) (victimSelect c (cacheSetIndex c a)) true ∧
    (cacheStep c a w).tags
        = upd2 c.tags (cacheSetIndex c a) (victimSelect c (cacheSetIndex c a)) (cacheTag c a) ∧
    (cacheStep c a w).misses = c.misses + 1 := by
  rw [isHit] at h
  cases hfind : findHitWay c.valid c.tags c.associativity
      (cacheSetIndex c a) (cacheTag c a) with
  | some i => rw [hfind] at h; cases h
  | none =>
      simp only [cacheStep, cache_access, hfind] <;> split <;> simp [victimSelect]

/-- After any access, the accessed tag is present in its set. -/
theorem present_after_step (c : Cache) (a : Nat) (w : Bool)
    (hassoc : 0 < c.associativity) :
    tagPresent (cacheStep c a w) (cacheSetIndex c a) (cacheTag c a) := by
  cases hh : isHit c a with
  | true =>
      obtain ⟨ht, hv, _⟩ := cacheStep_hit c a w hh
      rw [isHit] at hh
      cases hfind : findHitWay c.valid c.tags c.associativity
          (cacheSetIndex c a) (cacheTag c a) with
      | none => rw [hfind] at hh; cases hh
      | some i =>
          obtain ⟨hi, hvi, hti⟩ := findHitWay_some_spec _ _ _ _ _ _ hfind
          refine ⟨i, ?_, ?_, ?_⟩
          · rw [(cacheStep_fields c a w).2.2.2]
            exact hi
          · rw [hv]
            exact hvi
          · rw [ht]
            exact hti
  | false =>
      obtain ⟨hv, ht, _⟩ := cacheStep_miss c a w hh
      refine ⟨victimSelect c (cacheSetIndex c a), ?_, ?_, ?_⟩
      · rw [(cacheStep_fields c a w).2.2.2]
        exact victimSelect_lt c _ hassoc
      · rw [hv]
        simp [upd2, upd]
      · rw [ht]
        simp [upd2, upd]

/-- Repeatedly accessing an address whose tag is present never misses
and keeps the presence: the miss counter of the whole tail is frozen. -/
theorem fold_same_addr_misses (A : Nat) :
    ∀ (ws : List Bool) (c : Cache),
      tagPresent c (cacheSetIndex c A) (cacheTag c A) →
      (ws.foldl (fun st wr => cacheStep st A wr) c).misses = c.misses := by
  intro ws
  induction ws with
  | nil =>
      intro c _
      rfl
  | cons w ws ih =>
      intro c hpres
      have hhit : isHit c A = true := isHit_of_present c A hpres
      obtain ⟨ht, hv, hm⟩ := cacheStep_hit c A w hhit
      obtain ⟨_, hl, hn, ha⟩ := cacheStep_fields c A w
      have hpres2 : tagPresent (cacheStep c A w) (cacheSetIndex (cacheStep c A w) A)
          (cacheTag (cacheStep c A w) A) := by
        rw [cacheSetIndex_congr _ _ _ hl hn, cacheTag_congr _ _ _ hl hn]
        obtain ⟨w2, hw2, hv2, ht2⟩ := hpres
        exact ⟨w2, by rw [ha]; exact hw2, by rw [hv]; exact hv2, by rw [ht]; exact ht2⟩
      have := ih (cacheStep c A w) hpres2
      simp only [List.foldl_cons]
      rw [this, hm]

/-- A non-evicting access keeps every valid line valid with its tag. -/
theorem noevict_step_preserves (c : Cache) (a : Nat)
    (hne : accessEvicts c a = false) :
    ∀ s w2, c.valid s w2 = true →
      (cacheStep c a false).valid s w2 = true ∧
      (cacheStep c a false).tags s w2 = c.tags s w2 := by
  intro s w2 hval
  cases hh : isHit c a with
  | true =>
      obtain ⟨ht, hv, _⟩ := cacheStep_hit c a false hh
      rw [ht, hv]
      exact ⟨hval, rfl⟩
  | false =>
      have hvict : c.valid (cacheSetIndex c a) (victimSelect c (cacheSetIndex c a)) = false := by
        rw [accessEvicts, hh] at hne
        simpa using hne
      obtain ⟨hv, ht, _⟩ := cacheStep_miss c a false hh
      rw [hv, ht]
      have hdiff : ¬ (s = cacheSetIndex c a ∧
          w2 = victimSelect c (cacheSetIndex c a)) := by
        rintro ⟨rfl, rfl⟩
        rw [hval] at hvict
        cases hvict
      by_cases hs : s = cacheSetIndex c a
      · subst hs
        have hw2 : w2 ≠ victimSelect c (cacheSetIndex c a) := by
          intro h
          exact hdiff ⟨rfl, h⟩
        simp [upd2, upd, hw2]
        exact hval
      · simp [upd2, upd, hs]
        exact hval

/-- Presence is monotone along a non-evicting access. -/
theorem tagPresent_mono_step (c : Cache) (a : Nat) (s t : Nat)
    (hne : accessEvicts c a = false) (h : tagPresent c s t) :
    tagPresent (cacheStep c a false) s t := by
  obtain ⟨w2, hw2, hv, ht⟩ := h
  obtain ⟨hv2, ht2⟩ := noevict_step_preserves c a hne s w2 hv
  exact ⟨w2, by rw [(cacheStep_fields c a false).2.2.2]; exact hw2, hv2, by rw [ht2]; exact ht⟩

/-- Presence is monotone along a non-evicting access sequence. -/
theorem tagPresent_mono_fold :
    ∀ (l : List Nat) (c : Cache) (s t : Nat),
      evictsList c l = false → tagPresent c s t → tagPresent (foldSteps c l) s t := by
  intro l
  induction l with
  | nil =>
      intro c s t _ h
      exact h
  | cons a rest ih =>
      intro c s t hev h
      rw [evictsList] at hev
      simp only [Bool.or_eq_false_iff] at hev
      exact ih (cacheStep c a false) s t hev.2 (tagPresent_mono_step c a s t hev.1 h)

/-- The geometry fields survive a whole access sequence. -/
theorem foldSteps_fields :
    ∀ (l : List Nat) (c : Cache),
      (foldSteps c l).line_size = c.line_size ∧
      (foldSteps c l).num_sets = c.num_sets ∧
      (foldSteps c l).associativity = c.associativity := by
  intro l
  induction l with
  | nil =>
      intro c
      exact ⟨rfl, rfl, rfl⟩
  | cons a rest ih =>
      intro c
      obtain ⟨h1, h2, h3⟩ := ih (cacheStep c a false)
      obtain ⟨_, g1, g2, g3⟩ := cacheStep_fields c a false
      exact ⟨by rw [foldSteps] at h1 ⊢; simp only [List.foldl_cons]; rw [h1, g1],
        by rw [foldSteps] at h2 ⊢; simp only [List.foldl_cons]; rw [h2, g2],
        by rw [foldSteps] at h3 ⊢; simp only [List.foldl_cons]; rw [h3, g3]⟩

/-- With no eviction anywhere in the sequence, every accessed tag is
present in its set at the end. -/
theorem noevict_fold_present :
    ∀ (l : List Nat) (c : Cache), 0 < c.associativity →
      evictsList c l = false →
      ∀ a, a ∈ l → tagPresent (foldSteps c l) (cacheSetIndex c a) (cacheTag c a) := by
  intro l
  induction l with
  | nil =>
      intro c _ _ a ha
      cases ha
  | cons b rest ih =>
      intro c hassoc hev a ha
      rw [evictsList] at hev
      simp only [Bool.or_eq_false_iff] at hev
      obtain ⟨_, g1, g2, g3⟩ := cacheStep_fields c b false
      have hfold : foldSteps c (b :: rest) = foldSteps (cacheStep c b false) rest := rfl
      rcases List.mem_cons.mp ha with hab | hmem
      · subst hab
        rw [hfold]
        exact tagPresent_mono_fold rest (cacheStep c a false) _ _ hev.2
          (present_after_step c a false hassoc)
      · rw [hfold]
        have := ih (cacheStep c b false) (by rw [g3]; exact hassoc) hev.2 a hmem
        rwa [cacheSetIndex_congr _ _ _ g1 g2, cacheTag_congr _ _ _ g1 g2] at this

/-- C5 counterexample: a one-set two-way cache with two-byte lines
satisfies the geometry equation, and 0, 1, 2 are associativity + 1
distinct addresses of that one set, but addresses 0 and 1 share a line,
so the sequence installs only two lines into the two ways and evicts
nothing. -/
theorem cache_alias_distinct_addresses_counterexample :
    (cache_create .SET_ASSOC 4 2 2).size
        = (cache_create .SET_ASSOC 4 2 2).num_sets *
          (cache_create .SET_ASSOC 4 2 2).associativity *
          (cache_create .SET_ASSOC 4 2 2).line_size ∧
    ([0, 1, 2] : List Nat).length = (cache_create .SET_ASSOC 4 2 2).associativity + 1 ∧
    ([0, 1, 2] : List Nat).Nodup ∧
    (∀ a ∈ ([0, 1, 2] : List Nat), ∀ b ∈ ([0, 1, 2] : List Nat),
      cacheSetIndex (cache_create .SET_ASSOC 4 2 2) a
        = cacheSetIndex (cache_create .SET_ASSOC 4 2 2) b) ∧
    evictsList (cache_create .SET_ASSOC 4 2 2) [0, 1, 2] = false := by
  decide

/-- C5 (amended): for a cache with consistent geometry, after one access
to address A every further sequence of accesses to A leaves the miss
counter unchanged; and accessing associativity + 1 addresses lying in
pairwise distinct memory lines that all map to the same set evicts at
least one previously installed line (for merely distinct addresses the
eviction clause fails, since two of them can share a line). -/
theorem cache_hit_stability_and_alias_eviction (c : Cache)
    (hsets : 0 < c.num_sets) (hassoc : 0 < c.associativity)
    (hgeom : c.size = c.num_sets * c.associativity * c.line_size) :
    (∀ (A : Nat) (w : Bool) (ws : List Bool),
      (ws.foldl (fun st wr => cacheStep st A wr) (cacheStep c A w)).misses
        = (cacheStep c A w).misses) ∧
    (∀ l : List Nat, l.length = c.associativity + 1 →
      (l.map (fun a => cacheLine c a)).Nodup →
      (∀ a, a ∈ l → ∀ b, b ∈ l → cacheSetIndex c a = cacheSetIndex c b) →
      evictsList c l = true) := by
  constructor
  · intro A w ws
    obtain ⟨_, hl, hn, ha⟩ := cacheStep_fields c A w
    have hpres : tagPresent (cacheStep c A w) (cacheSetIndex (cacheStep c A w) A)
        (cacheTag (cacheStep c A w) A) := by
      rw [cacheSetIndex_congr _ _ _ hl hn, cacheTag_congr _ _ _ hl hn]
      exact present_after_step c A w hassoc
    exact fold_same_addr_misses A ws (cacheStep c A w) hpres
  · intro l hlen hlines hsame
    by_contra hev
    have hev2 : evictsList c l = false := by
      cases h : evictsList c l with
      | false => rfl
      | true => exact absurd h hev
    have hpres := noevict_fold_present l c hassoc hev2
    have hlpos : 0 < l.length := by omega
    obtain ⟨a0, ha0⟩ := List.exists_mem_of_length_pos hlpos
    have hinj := List.inj_on_of_nodup_map hlines
    have htaginj : ∀ x, x ∈ l → ∀ y, y ∈ l → cacheTag c x = cacheTag c y → x = y := by
      intro x hx y hy ht
      apply hinj hx hy
      have hs := hsame x hx y hy
      have dx := Nat.div_add_mod (cacheLine c x) c.num_sets
      have dy := Nat.div_add_mod (cacheLine c y) c.num_sets
      rw [cacheTag, cacheTag] at ht
      rw [cacheSetIndex, cacheSetIndex] at hs
      have ht2 : c.num_sets * (cacheLine c x / c.num_sets)
          = c.num_sets * (cacheLine c y / c.num_sets) := by rw [ht]
      omega
    have hnodupt : (l.map (fun a => cacheTag c a)).Nodup := by
      apply List.Nodup.map_on
      · intro x hx y hy h
        exact htaginj x hx y hy h
      · exact hlines.of_map
    have hF := foldSteps_fields l c
    have hsub : (l.map (fun a => cacheTag c a)).toFinset ⊆
        (Finset.range c.associativity).image
          ((foldSteps c l).tags (cacheSetIndex c a0)) := by
      intro t htx
      rw [List.mem_toFinset] at htx
      obtain ⟨a, ha, rfl⟩ := List.mem_map.mp htx
      have hp := hpres a ha
      rw [hsame a ha a0 ha0] at hp
      obtain ⟨w, hw, hv, ht⟩ := hp
      rw [Finset.mem_image]
      refine ⟨w, Finset.mem_range.mpr ?_, ht⟩
      rw [hF.2.2] at hw
      exact hw
    have hcard1 : (l.map (fun a => cacheTag c a)).toFinset.card = c.associativity + 1 := by
      rw [List.toFinset_card_of_nodup hnodupt, List.length_map, hlen]
    have hcard2 := Finset.card_le_card hsub
    have hcard3 := Finset.card_image_le (s := Finset.range c.associativity)
      (f := (foldSteps c l).tags (cacheSetIndex c a0))
    rw [hcard1] at hcard2
    rw [Finset.card_range] at hcard3
    omega

/-- C5 witness: on a concrete one-set two-way cache, accessing three
addresses in pairwise distinct lines of the one set evicts a line. -/
theorem cache_hit_stability_and_alias_eviction_witness :
    evictsList (cache_create .SET_ASSOC 4 2 2) [0, 2, 4] = true :=
  (cache_hit_stability_and_alias_eviction (cache_create .SET_ASSOC 4 2 2)
    (by decide) (by decide) (by decide)).2 [0, 2, 4]
    (by decide) (by decide) (by decide)

/-! ## C6: branch predictor update -/

/-- The saturating counter never leaves 0..3. -/
theorem satIncDec_le (p : Nat) (taken : Bool) (h : p ≤ 3) :
    satIncDec p taken ≤ 3 := by
  cases taken <;> simp [satIncDec] <;> split <;> omega

/-- `bp_update` adds 1 to the correct counter exactly when the outcome
matched the prediction. -/
theorem bp_update_correct (bp : BranchPredictor) (pc : Nat) (taken predicted : Bool) :
    (bp_update bp pc taken predicted).correct
      = bp.correct + (if taken = predicted then 1 else 0) := by
  rcases taken <;> rcases predicted <;>
    rcases hty : bp.type with _ | _ | _ | _ <;>
    simp [bp_update, hty]

/-- Bimodal `bp_update`: indexed counter gets the saturating update,
everything else in the table and the history register are untouched. -/
theorem bp_update_pht_bimodal (bp : BranchPredictor) (pc : Nat)
    (taken predicted : Bool) (hty : bp.type = PredictorType.BIMODAL) :
    (bp_update bp pc taken predicted).pht (pc % bp.pht_size)
      = satIncDec (bp.pht (pc % bp.pht_size)) taken ∧
    (∀ j, j ≠ pc % bp.pht_size →
      (bp_update bp pc taken predicted).pht j = bp.pht j) ∧
    (bp_update bp pc taken predicted).bhr = bp.bhr := by
  rcases htp : taken == predicted with _ | _ <;>
    simp [bp_update, hty, htp, upd] <;>
    · intro j hj1 hj2
      exact absurd hj2 hj1

/-- Gshare `bp_update`: indexed counter gets the saturating update, other
entries are untouched, and the outcome bit is shifted into the history
register, which is masked to the configured width. -/
theorem bp_update_pht_gshare (bp : BranchPredictor) (pc : Nat)
    (taken predicted : Bool) (hty : bp.type = PredictorType.GSHARE) :
    (bp_update bp pc taken predicted).pht ((pc ^^^ bp.bhr) % bp.pht_size)
      = satIncDec (bp.pht ((pc ^^^ bp.bhr) % bp.pht_size)) taken ∧
    (∀ j, j ≠ (pc ^^^ bp.bhr) % bp.pht_size →
      (bp_update bp pc taken predicted).pht j = bp.pht j) ∧
    (bp_update bp pc taken predicted).bhr
      = ((2 * bp.bhr + (if taken then 1 else 0)) % 2 ^ 32) % 2 ^ bp.bhr_size := by
  have hshift : ∀ n : Nat, n <<< 1 = 2 * n := by
    intro n
    rw [Nat.shiftLeft_eq]
    ring
  have hbhr : (((bp.bhr <<< 1) % 2 ^ 32) ||| (if taken then 1 else 0)) &&&
      ((1 <<< bp.bhr_size) - 1)
      = ((2 * bp.bhr + (if taken then 1 else 0)) % 2 ^ 32) % 2 ^ bp.bhr_size := by
    have h32 : (2:Nat) ^ 32 = 2 * 2 ^ 31 := by norm_num
    have heven : (2 * bp.bhr) % 2 ^ 32 % 2 = 0 := by
      omega
    have hor : ((2 * bp.bhr) % 2 ^ 32) ||| (if taken then 1 else 0)
        = (2 * bp.bhr) % 2 ^ 32 + (if taken then 1 else 0) := by
      have he2 : (2 * bp.bhr) % 2 ^ 32 = ((2 * bp.bhr) % 2 ^ 32 / 2) <<< 1 := by
        rw [hshift]
        omega
      rw [he2, shiftLeft_lor_eq_add 1 _ _ (by cases taken <;> simp)]
      rw [hshift] at he2 ⊢
      omega
    have hmask : (1 <<< bp.bhr_size) - 1 = 2 ^ bp.bhr_size - 1 := by
      rw [Nat.shiftLeft_eq]
      ring_nf
    have hsum : (2 * bp.bhr) % 2 ^ 32 + (if taken then 1 else 0)
        = (2 * bp.bhr + (if taken then 1 else 0)) % 2 ^ 32 := by
      cases taken <;> simp <;> omega
    rw [hshift, hor, hmask, Nat.and_pow_two_sub_one_eq_mod, hsum]
  rw [hshift] at hbhr
  rcases htp : taken == predicted with _ | _ <;>
    simp [bp_update, hty, htp, upd] <;>
    · constructor
      · intro j hj1 hj2
        exact absurd hj2 hj1
      · rw [hshift, show (4294967296:Nat) = 2 ^ 32 from by norm_num]
        exact hbhr

/-- C6: `bp_update` bumps the correct counter exactly when the actual
outcome matches the prediction; for the bimodal and gshare policies it
saturates the indexed 2-bit counter up on taken and down on not-taken,
leaving other entries alone and staying within 0..3; and gshare shifts
the outcome bit into the history register and masks it to the configured
width. -/
theorem bp_update_spec (bp : BranchPredictor) (pc : Nat) (taken predicted : Bool)
    (hw : bp.bhr_size ≤ 32) :
    (bp_update bp pc taken predicted).correct
      = bp.correct + (if taken = predicted then 1 else 0) ∧
    (bp.type = PredictorType.BIMODAL →
      ((bp_update bp pc taken predicted).pht (pc % bp.pht_size)
          = satIncDec (bp.pht (pc % bp.pht_size)) taken) ∧
      (taken = true → (bp_update bp pc taken predicted).pht (pc % bp.pht_size)
          = if bp.pht (pc % bp.pht_size) < 3 then bp.pht (pc % bp.pht_size) + 1
            else bp.pht (pc % bp.pht_size)) ∧
      (taken = false → (bp_update bp pc taken predicted).pht (pc % bp.pht_size)
          = if 0 < bp.pht (pc % bp.pht_size) then bp.pht (pc % bp.pht_size) - 1
            else bp.pht (pc % bp.pht_size)) ∧
      (bp.pht (pc % bp.pht_size) ≤ 3 →
        (bp_update bp pc taken predicted).pht (pc % bp.pht_size) ≤ 3) ∧
      (∀ j, j ≠ pc % bp.pht_size → (bp_update bp pc taken predicted).pht j = bp.pht j) ∧
      (bp_update bp pc taken predicted).bhr = bp.bhr) ∧
    (bp.type = PredictorType.GSHARE →
      ((bp_update bp pc taken predicted).pht ((pc ^^^ bp.bhr) % bp.pht_size)
          = satIncDec (bp.pht ((pc ^^^ bp.bhr) % bp.pht_size)) taken) ∧
      (bp.pht ((pc ^^^ bp.bhr) % bp.pht_size) ≤ 3 →
        (bp_update bp pc taken predicted).pht ((pc ^^^ bp.bhr) % bp.pht_size) ≤ 3) ∧
      (∀ j, j ≠ (pc ^^^ bp.bhr) % bp.pht_size →
        (bp_update bp pc taken predicted).pht j = bp.pht j) ∧
      (bp_update bp pc taken predicted).bhr
          = ((2 * bp.bhr + (if taken then 1 else 0)) % 2 ^ 32) % 2 ^ bp.bhr_size) := by
  refine ⟨bp_update_correct bp pc taken predicted, fun hty => ?_, fun hty => ?_⟩
  · obtain ⟨h1, h2, h3⟩ := bp_update_pht_bimodal bp pc taken predicted hty
    refine ⟨h1, ?_, ?_, ?_, h2, h3⟩
    · intro ht
      rw [h1, ht]
      simp [satIncDec]
    · intro ht
      rw [h1, ht]
      simp [satIncDec]
    · intro hle
      rw [h1]
      exact satIncDec_le _ _ hle
  · obtain ⟨h1, h2, h3⟩ := bp_update_pht_gshare bp pc taken predicted hty
    refine ⟨h1, ?_, h2, h3⟩
    intro hle
    rw [h1]
    exact satIncDec_le _ _ hle

/-- C6 witness: a concrete bimodal update where the prediction was wrong
and the counter decrements from its initial weakly-taken value. -/
theorem bp_update_spec_witness :
    ((bp_create .BIMODAL 12 16).bhr_size ≤ 32) ∧
    (bp_update (bp_create .BIMODAL 12 16) 3 false true).correct
      = (bp_create .BIMODAL 12 16).correct + (if (false : Bool) = true then 1 else 0) := by
  refine ⟨by decide, ?_⟩
  exact (bp_update_spec (bp_create .BIMODAL 12 16) 3 false true (by decide)).1

/-! ## C8: issue backpressure -/

/-- The station scan finds nothing exactly when every station is busy. -/
theorem findFreeRS_none_iff (rs : Nat → ReservationStation) (n : Nat) :
    findFreeRS rs n = none ↔ ∀ i, i < n → (rs i).busy = true := by
  rw [findFreeRS, List.find?_eq_none]
  constructor
  · intro h i hi
    have := h i (List.mem_range.mpr hi)
    simpa using this
  · intro h i hi
    have := h i (List.mem_range.mp hi)
    simp [this]

/-- The station scan returns the first free station. -/
theorem findFreeRS_some (rs : Nat → ReservationStation) :
    ∀ n i, findFreeRS rs n = some i →
      i < n ∧ (rs i).busy = false ∧ ∀ j, j < i → (rs j).busy = true := by
  intro n
  induction n with
  | zero =>
      intro i h
      cases h
  | succ n ih =>
      intro i h
      rw [findFreeRS, List.range_succ, List.find?_append] at h
      cases hfind : (List.range n).find? (fun j => !(rs j).busy) with
      | some x =>
          rw [hfind] at h
          simp at h
          obtain ⟨h1, h2, h3⟩ := ih x hfind
          subst h
          exact ⟨by omega, h2, h3⟩
      | none =>
          rw [hfind] at h
          simp at h
          obtain ⟨hbusy, hix⟩ := h
          subst hix
          refine ⟨by omega, hbusy, ?_⟩
          intro j hj
          have hnone := (findFreeRS_none_iff rs n).mp hfind
          exact hnone j hj

/-- C8: `tomasulo_issue` returns false exactly when no reservation
station is free, and then leaves the engine state completely unchanged;
when a free station exists it returns true, fills the first free station,
allocates the reorder-buffer tail entry (not ready), records that entry
(as index + 1) as the destination register's pending producer, advances
the tail and bumps the issue counter, touching nothing else. -/
theorem tomasulo_issue_spec (t : TomasuloCPU) (inst : DecodedInstruction) :
    ((tomasulo_issue t inst).1 = false ↔ ∀ i, i < t.rs_count → (t.rs i).busy = true) ∧
    ((tomasulo_issue t inst).1 = false → (tomasulo_issue t inst).2 = t) ∧
    ((tomasulo_issue t inst).1 = true →
      ∃ i, i < t.rs_count ∧ (t.rs i).busy = false ∧
        (∀ j, j < i → (t.rs j).busy = true) ∧
        ((tomasulo_issue t inst).2.rs i).busy = true ∧
        ((tomasulo_issue t inst).2.rs i).op = inst.type ∧
        ((tomasulo_issue t inst).2.rs i).dest = inst.rd ∧
        (∀ j, j ≠ i → (tomasulo_issue t inst).2.rs j = t.rs j) ∧
        ((tomasulo_issue t inst).2.rob t.rob_tail).busy = true ∧
        ((tomasulo_issue t inst).2.rob t.rob_tail).ready = false ∧
        ((tomasulo_issue t inst).2.rob t.rob_tail).op = inst.type ∧
        ((tomasulo_issue t inst).2.rob t.rob_tail).dest = inst.rd ∧
        (∀ j, j ≠ t.rob_tail → (tomasulo_issue t inst).2.rob j = t.rob j) ∧
        (tomasulo_issue t inst).2.reg_status inst.rd = t.rob_tail + 1 ∧
        (∀ r, r ≠ inst.rd → (tomasulo_issue t inst).2.reg_status r = t.reg_status r) ∧
        (tomasulo_issue t inst).2.rob_tail = (t.rob_tail + 1) % t.rob_size ∧
        (tomasulo_issue t inst).2.instructions_issued = t.instructions_issued + 1 ∧
        (tomasulo_issue t inst).2.registers = t.registers ∧
        (tomasulo_issue t inst).2.rob_head = t.rob_head) := by
  cases hfind : findFreeRS t.rs t.rs_count with
  | none =>
      refine ⟨?_, ?_, ?_⟩
      · simp only [tomasulo_issue, hfind]
        simpa using (findFreeRS_none_iff t.rs t.rs_count).mp hfind
      · intro _
        simp [tomasulo_issue, hfind]
      · intro h
        rw [tomasulo_issue, hfind] at h
        cases h
  | some i =>
      obtain ⟨hi, hfree, hfirst⟩ := findFreeRS_some t.rs t.rs_count i hfind
      refine ⟨?_, ?_, ?_⟩
      · simp only [tomasulo_issue, hfind]
        constructor
        · intro h
          cases h
        · intro h
          have := h i hi
          rw [hfree] at this
          cases this
      · intro h
        rw [tomasulo_issue, hfind] at h
        cases h
      · intro _
        refine ⟨i, hi, hfree, hfirst, ?_, ?_, ?_, ?_, ?_, ?_, ?_, ?_, ?_, ?_, ?_, ?_, ?_, ?_, ?_⟩
        · simp only [tomasulo_issue, hfind]
          split <;> split <;> simp [upd]
        · simp only [tomasulo_issue, hfind]
          split <;> split <;> simp [upd]
        · simp only [tomasulo_issue, hfind]
          split <;> split <;> simp [upd]
        · intro j hj
          simp only [tomasulo_issue, hfind]
          simp [upd, hj]
        · simp only [tomasulo_issue, hfind]
          simp [upd]
        · simp only [tomasulo_issue, hfind]
          simp [upd]
        · simp only [tomasulo_issue, hfind]
          simp [upd]
        · simp only [tomasulo_issue, hfind]
          simp [upd]
        · intro j hj
          simp only [tomasulo_issue, hfind]
          simp [upd, hj]
        · simp only [tomasulo_issue, hfind]
          simp [upd]
        · intro r hr
          simp only [tomasulo_issue, hfind]
          simp [upd, hr]
        · simp only [tomasulo_issue, hfind]
        · simp only [tomasulo_issue, hfind]
        · simp only [tomasulo_issue, hfind]
        · simp only [tomasulo_issue, hfind]

/-- C8 witness: with every station busy, issue fails and the state is
returned untouched; the all-busy condition is discharged concretely. -/
theorem tomasulo_issue_spec_witness :
    (tomasulo_issue
        { tomasulo_create 1 4 with rs := fun _ => { emptyRS with busy := true } }
        { zeroInst with type := .ADD, rd := 1, rs1 := 2, rs2 := 3 }).1 = false ∧
    (tomasulo_issue
        { tomasulo_create 1 4 with rs := fun _ => { emptyRS with busy := true } }
        { zeroInst with type := .ADD, rd := 1, rs1 := 2, rs2 := 3 }).2
      = { tomasulo_create 1 4 with rs := fun _ => { emptyRS with busy := true } } := by
  constructor
  · decide
  · exact (tomasulo_issue_spec
      { tomasulo_create 1 4 with rs := fun _ => { emptyRS with busy := true } }
      { zeroInst with type := .ADD, rd := 1, rs1 := 2, rs2 := 3 }).2.1 (by decide)

/-- C9: constructing a cache whose size (100) is not divisible by
line_size x associativity (64 x 8 = 512) is not rejected: `cache_create`
silently returns a cache, here with zero sets, violating the documented
geometry invariant (`cache_access` on it would divide by zero). -/
theorem cache_create_accepts_invalid_geometry :
    (cache_create .SET_ASSOC 100 64 8).num_sets = 0 ∧
    (cache_create .SET_ASSOC 100 64 8).num_sets *
        (cache_create .SET_ASSOC 100 64 8).associativity *
        (cache_create .SET_ASSOC 100 64 8).line_size ≠
      (cache_create .SET_ASSOC 100 64 8).size := by
  constructor
  · rfl
  · decide

/-! ## C2: misprediction flush in the fetch stage -/

/-- C2 counterexample: in a state whose Execute register carries a
mispredicted jump but whose fetch register has the stall flag set,
`stage_fetch` returns before the misprediction check, so no stage is
bubbled, the bubble counter is unchanged and the pc is not redirected. -/
theorem stage_fetch_stall_skips_flush_counterexample :
    (c2StallState.pipeE.type = .JMP ∨ c2StallState.pipeE.type = .JZ ∨
      c2StallState.pipeE.type = .JNZ) ∧
    (c2StallState.pipeE.result != 0) ≠ (bp_predict c2StallState.bp c2StallState.pipeE.pc).1 ∧
    (stage_fetch c2StallState).bubbles = c2StallState.bubbles ∧
    (stage_fetch c2StallState).pipeD.bubble = false ∧
    (stage_fetch c2StallState).pc = c2StallState.pc := by
  refine ⟨Or.inl rfl, by decide, rfl, rfl, rfl⟩

/-- C2 (amended): when the fetch stage is NOT stalled and the Execute
register carries a jump whose outcome (`result != 0`) disagrees with the
re-prediction made for its pc, `stage_fetch` bubbles Decode through
Commit, latches the branch target into the fetch register, leaves the pc
one past the target (the target instruction having been fetched in the
same cycle), and adds exactly 3 to the bubble counter.  With the stall
flag set none of this happens (see the counterexample). -/
theorem stage_fetch_mispredict_flush (cpu : CPU)
    (hstall : cpu.pipeF.stall = false)
    (hjmp : cpu.pipeE.type = .JMP ∨ cpu.pipeE.type = .JZ ∨ cpu.pipeE.type = .JNZ)
    (hmis : (cpu.pipeE.result != 0) ≠ (bp_predict cpu.bp cpu.pipeE.pc).1) :
    (stage_fetch cpu).pipeD.bubble = true ∧
    (stage_fetch cpu).pipeE.bubble = true ∧
    (stage_fetch cpu).pipeM.bubble = true ∧
    (stage_fetch cpu).pipeW.bubble = true ∧
    (stage_fetch cpu).pipeC.bubble = true ∧
    (stage_fetch cpu).pipeF.pc = cpu.pipeE.result ∧
    (stage_fetch cpu).pc = (cpu.pipeE.result + 1) % U64 ∧
    (stage_fetch cpu).bubbles = cpu.bubbles + 3 := by
  have hb : ((cpu.pipeE.result != 0) != (bp_predict cpu.bp cpu.pipeE.pc).1) = true := by
    cases h1 : (cpu.pipeE.result != 0) <;>
      cases h2 : (bp_predict cpu.bp cpu.pipeE.pc).1 <;> simp_all
  simp only [stage_fetch, hstall, Bool.false_eq_true, if_false, if_pos hjmp, hb,
    if_true, flushPipe]
  exact ⟨trivial, trivial, trivial, trivial, trivial, trivial, trivial, trivial⟩

/-- C2 witness: the flush on the concrete unstalled mispredicted-JMP
state. -/
theorem stage_fetch_mispredict_flush_witness :
    (stage_fetch c2MispredictState).pipeD.bubble = true ∧
    (stage_fetch c2MispredictState).pipeE.bubble = true ∧
    (stage_fetch c2MispredictState).pipeM.bubble = true ∧
    (stage_fetch c2MispredictState).pipeW.bubble = true ∧
    (stage_fetch c2MispredictState).pipeC.bubble = true ∧
    (stage_fetch c2MispredictState).pipeF.pc = c2MispredictState.pipeE.result ∧
    (stage_fetch c2MispredictState).pc = (c2MispredictState.pipeE.result + 1) % U64 ∧
    (stage_fetch c2MispredictState).bubbles = c2MispredictState.bubbles + 3 :=
  stage_fetch_mispredict_flush c2MispredictState rfl (Or.inl rfl) (by decide)

/-! ## Pipeline stage projection lemmas -/

theorem stage_commit_proj (cpu : CPU) :
    ((stage_commit cpu).pipeC.type = .NOP ∧ (stage_commit cpu).pipeC.dest = cpu.pipeC.dest
      ∨ (stage_commit cpu).pipeC = cpu.pipeW) ∧
    (stage_commit cpu).pipeF = { cpu.pipeF with stall := false } ∧
    (stage_commit cpu).pipeD = cpu.pipeD ∧
    (stage_commit cpu).pipeE = cpu.pipeE ∧
    (stage_commit cpu).pipeM = cpu.pipeM ∧
    (stage_commit cpu).pipeW = cpu.pipeW ∧
    (stage_commit cpu).registers = cpu.registers ∧
    (stage_commit cpu).memory = cpu.memory ∧
    (stage_commit cpu).pc = cpu.pc := by
  unfold stage_commit
  cases h : cpu.pipeW.bubble <;> simp [h]

theorem stage_writeback_proj (cpu : CPU) :
    ((stage_writeback cpu).pipeW.type = .NOP ∧ (stage_writeback cpu).pipeW.dest = cpu.pipeW.dest
      ∨ (stage_writeback cpu).pipeW.type = cpu.pipeM.type
        ∧ (stage_writeback cpu).pipeW.dest = cpu.pipeM.dest) ∧
    (∀ i, i ≠ cpu.pipeM.dest → (stage_writeback cpu).registers i = cpu.registers i) ∧
    (stage_writeback cpu).pipeF = cpu.pipeF ∧
    (stage_writeback cpu).pipeD = cpu.pipeD ∧
    (stage_writeback cpu).pipeE = cpu.pipeE ∧
    (stage_writeback cpu).pipeM = cpu.pipeM ∧
    (stage_writeback cpu).pipeC = cpu.pipeC ∧
    (stage_writeback cpu).memory = cpu.memory ∧
    (stage_writeback cpu).pc = cpu.pc := by
  unfold stage_writeback
  cases h : cpu.pipeM.bubble
  · refine ⟨Or.inr ⟨by simp [h], by simp [h]⟩, ?_, by simp [h], by simp [h], by simp [h],
      by simp [h], by simp [h], by simp [h], by simp [h]⟩
    intro i hi
    simp only [h, Bool.false_eq_true, if_false]
    split
    · exact upd_ne _ _ _ _ hi
    · rfl
  · exact ⟨Or.inl ⟨by simp [h], by simp [h]⟩, fun i _ => by simp [h], by simp [h], by simp [h],
      by simp [h], by simp [h], by simp [h], by simp [h], by simp [h]⟩

theorem stage_memory_proj (cpu : CPU) :
    ((stage_memory cpu).pipeM.type = .NOP ∧ (stage_memory cpu).pipeM.dest = cpu.pipeM.dest
      ∨ (stage_memory cpu).pipeM.type = cpu.pipeE.type
        ∧ (stage_memory cpu).pipeM.dest = cpu.pipeE.dest) ∧
    (stage_memory cpu).pipeF = cpu.pipeF ∧
    (stage_memory cpu).pipeD = cpu.pipeD ∧
    (stage_memory cpu).pipeE = cpu.pipeE ∧
    (stage_memory cpu).pipeW = cpu.pipeW ∧
    (stage_memory cpu).pipeC = cpu.pipeC ∧
    (stage_memory cpu).registers = cpu.registers ∧
    (stage_memory cpu).pc = cpu.pc ∧
    (cpu.pipeE.type ≠ .ST → (stage_memory cpu).memory = cpu.memory) := by
  unfold stage_memory
  cases h : cpu.pipeE.bubble
  · by_cases hld : cpu.pipeE.type = .LD
    · simp [h, hld]
    · by_cases hst : cpu.pipeE.type = .ST <;> simp [h, hld, hst]
  · simp [h]

theorem stage_execute_proj (cpu : CPU) :
    ((stage_execute cpu).pipeE.type = .NOP ∧ (stage_execute cpu).pipeE.dest = cpu.pipeE.dest
      ∨ (stage_execute cpu).pipeE.type = cpu.pipeD.type
        ∧ (stage_execute cpu).pipeE.dest = cpu.pipeD.dest) ∧
    (stage_execute cpu).pipeF = cpu.pipeF ∧
    (stage_execute cpu).pipeD = cpu.pipeD ∧
    (stage_execute cpu).pipeM = cpu.pipeM ∧
    (stage_execute cpu).pipeW = cpu.pipeW ∧
    (stage_execute cpu).pipeC = cpu.pipeC ∧
    (stage_execute cpu).registers = cpu.registers ∧
    (stage_execute cpu).memory = cpu.memory ∧
    (stage_execute cpu).pc = cpu.pc := by
  obtain ⟨regs, pc, sp, flags, mem, msz, l1, l2, bp, pF, pD, pE, pM, pW, pC,
    cyc, ins, stl, bub⟩ := cpu
  obtain ⟨dpc, dty, dop, ds1, ds2, dds, dim, dres, dma, dmd, dst, dbb, dce⟩ := pD
  unfold stage_execute
  cases dbb <;> cases dty <;> simp

theorem stage_decode_proj (cpu : CPU) :
    ((stage_decode cpu).pipeD.type = .NOP ∧ (stage_decode cpu).pipeD.dest = cpu.pipeD.dest
      ∨ (stage_decode cpu).pipeD.type = cpu.pipeF.type
        ∧ (stage_decode cpu).pipeD.dest = cpu.pipeF.dest) ∧
    ((stage_decode cpu).pipeF = cpu.pipeF
      ∨ (stage_decode cpu).pipeF = { cpu.pipeF with stall := true }) ∧
    (check_hazard cpu 1 cpu.pipeF.src1 = false → check_hazard cpu 1 cpu.pipeF.src2 = false →
      (stage_decode cpu).pipeF = cpu.pipeF) ∧
    (stage_decode cpu).pipeE = cpu.pipeE ∧
    (stage_decode cpu).pipeM = cpu.pipeM ∧
    (stage_decode cpu).pipeW = cpu.pipeW ∧
    (stage_decode cpu).pipeC = cpu.pipeC ∧
    (stage_decode cpu).registers = cpu.registers ∧
    (stage_decode cpu).memory = cpu.memory ∧
    (stage_decode cpu).pc = cpu.pc := by
  unfold stage_decode
  cases hb : cpu.pipeF.bubble
  · cases hz : (check_hazard cpu 1 cpu.pipeF.src1 || check_hazard cpu 1 cpu.pipeF.src2)
    · simp [hb, hz]
    · refine ⟨Or.inl ⟨by simp [hb, hz], by simp [hb, hz]⟩, Or.inr (by simp [hb, hz]), ?_,
        by simp [hb, hz], by simp [hb, hz], by simp [hb, hz], by simp [hb, hz],
        by simp [hb, hz], by simp [hb, hz], by simp [hb, hz]⟩
      intro h1 h2
      rw [h1, h2] at hz
      simp at hz
  · simp [hb]

theorem stage_fetch_proj (cpu : CPU) :
    (stage_fetch cpu).pipeF.dest = cpu.pipeF.dest ∧
    (stage_fetch cpu).pipeD.dest = cpu.pipeD.dest ∧
    (stage_fetch cpu).pipeE.dest = cpu.pipeE.dest ∧
    (stage_fetch cpu).pipeM.dest = cpu.pipeM.dest ∧
    (stage_fetch cpu).pipeW.dest = cpu.pipeW.dest ∧
    (stage_fetch cpu).pipeC.dest = cpu.pipeC.dest ∧
    (stage_fetch cpu).registers = cpu.registers ∧
    (stage_fetch cpu).memory = cpu.memory := by
  unfold stage_fetch
  cases hs : cpu.pipeF.stall
  · by_cases hj : (cpu.pipeE.type = .JMP ∨ cpu.pipeE.type = .JZ ∨ cpu.pipeE.type = .JNZ)
    · cases hm : (cpu.pipeE.result != 0) != (bp_predict cpu.bp cpu.pipeE.pc).1 <;>
        simp [hs, hj, hm, flushPipe]
    · simp [hs, hj]
  · simp [hs]

theorem stage_fetch_quiet (cpu : CPU) (hstall : cpu.pipeF.stall = false)
    (hnj : cpu.pipeE.type = .NOP) :
    (stage_fetch cpu).pc = (cpu.pc + 1) % U64 ∧
    (stage_fetch cpu).pipeF.type = fetchDecodeType (cpu.memory cpu.pc) ∧
    (stage_fetch cpu).pipeF.stall = false ∧
    (stage_fetch cpu).pipeD = cpu.pipeD ∧
    (stage_fetch cpu).pipeE = cpu.pipeE ∧
    (stage_fetch cpu).pipeM = cpu.pipeM ∧
    (stage_fetch cpu).pipeW = cpu.pipeW ∧
    (stage_fetch cpu).pipeC = cpu.pipeC ∧
    (stage_fetch cpu).memory = cpu.memory := by
  unfold stage_fetch
  have hj : ¬(cpu.pipeE.type = .JMP ∨ cpu.pipeE.type = .JZ ∨ cpu.pipeE.type = .JNZ) := by
    simp [hnj]
  simp [hstall, hj]

theorem check_hazard_nop (cpu : CPU) (r : Nat)
    (h2 : cpu.pipeE.type = .NOP) (h3 : cpu.pipeM.type = .NOP)
    (h4 : cpu.pipeW.type = .NOP) (h5 : cpu.pipeC.type = .NOP) :
    check_hazard cpu 1 r = false := by
  simp only [check_hazard, show List.range 6 = [0, 1, 2, 3, 4, 5] from rfl,
    List.any_cons, List.any_nil, pipelineGet]
  simp [h2, h3, h4, h5]

theorem destFree_step (cpu : CPU) (h : destFree cpu) :
    destFree (cpu_step cpu) ∧
    ∀ i, 1 ≤ i → (cpu_step cpu).registers i = cpu.registers i := by
  obtain ⟨h1, h2, h3, h4, h5, h6⟩ := h
  obtain ⟨Q1C, Q1F, Q1D, Q1E, Q1M, Q1W, Q1R, _, _⟩ := stage_commit_proj cpu
  have d1F : (stage_commit cpu).pipeF.dest = 0 := by rw [Q1F]; exact h1
  have d1D : (stage_commit cpu).pipeD.dest = 0 := by rw [Q1D]; exact h2
  have d1E : (stage_commit cpu).pipeE.dest = 0 := by rw [Q1E]; exact h3
  have d1M : (stage_commit cpu).pipeM.dest = 0 := by rw [Q1M]; exact h4
  have d1W : (stage_commit cpu).pipeW.dest = 0 := by rw [Q1W]; exact h5
  have d1C : (stage_commit cpu).pipeC.dest = 0 := by
    rcases Q1C with ⟨_, hd⟩ | hEq
    · rw [hd]; exact h6
    · rw [hEq]; exact h5
  obtain ⟨Q2W, Q2R, Q2F, Q2D, Q2E, Q2M, Q2C, _, _⟩ :=
    stage_writeback_proj (stage_commit cpu)
  have d2F : (stage_writeback (stage_commit cpu)).pipeF.dest = 0 := by rw [Q2F]; exact d1F
  have d2D : (stage_writeback (stage_commit cpu)).pipeD.dest = 0 := by rw [Q2D]; exact d1D
  have d2E : (stage_writeback (stage_commit cpu)).pipeE.dest = 0 := by rw [Q2E]; exact d1E
  have d2M : (stage_writeback (stage_commit cpu)).pipeM.dest = 0 := by rw [Q2M]; exact d1M
  have d2C : (stage_writeback (stage_commit cpu)).pipeC.dest = 0 := by rw [Q2C]; exact d1C
  have d2W : (stage_writeback (stage_commit cpu)).pipeW.dest = 0 := by
    rcases Q2W with ⟨_, hd⟩ | ⟨_, hd⟩
    · rw [hd]; exact d1W
    · rw [hd]; exact d1M
  obtain ⟨Q3M, Q3F, Q3D, Q3E, Q3W, Q3C, Q3R, _, _⟩ :=
    stage_memory_proj (stage_writeback (stage_commit cpu))
  have d3F : (stage_memory (stage_writeback (stage_commit cpu))).pipeF.dest = 0 := by
    rw [Q3F]; exact d2F
  have d3D : (stage_memory (stage_writeback (stage_commit cpu))).pipeD.dest = 0 := by
    rw [Q3D]; exact d2D
  have d3E : (stage_memory (stage_writeback (stage_commit cpu))).pipeE.dest = 0 := by
    rw [Q3E]; exact d2E
  have d3W : (stage_memory (stage_writeback (stage_commit cpu))).pipeW.dest = 0 := by
    rw [Q3W]; exact d2W
  have d3C : (stage_memory (stage_writeback (stage_commit cpu))).pipeC.dest = 0 := by
    rw [Q3C]; exact d2C
  have d3M : (stage_memory (stage_writeback (stage_commit cpu))).pipeM.dest = 0 := by
    rcases Q3M with ⟨_, hd⟩ | ⟨_, hd⟩
    · rw [hd]; exact d2M
    · rw [hd]; exact d2E
  obtain ⟨Q4E, Q4F, Q4D, Q4M, Q4W, Q4C, Q4R, _, _⟩ :=
    stage_execute_proj (stage_memory (stage_writeback (stage_commit cpu)))
  have d4F : (stage_execute (stage_memory (stage_writeback (stage_commit cpu)))).pipeF.dest
      = 0 := by rw [Q4F]; exact d3F
  have d4D : (stage_execute (stage_memory (stage_writeback (stage_commit cpu)))).pipeD.dest
      = 0 := by rw [Q4D]; exact d3D
  have d4M : (stage_execute (stage_memory (stage_writeback (stage_commit cpu)))).pipeM.dest
      = 0 := by rw [Q4M]; exact d3M
  have d4W : (stage_execute (stage_memory (stage_writeback (stage_commit cpu)))).pipeW.dest
      = 0 := by rw [Q4W]; exact d3W
  have d4C : (stage_execute (stage_memory (stage_writeback (stage_commit cpu)))).pipeC.dest
      = 0 := by rw [Q4C]; exact d3C
  have d4E : (stage_execute (stage_memory (stage_writeback (stage_commit cpu)))).pipeE.dest
      = 0 := by
    rcases Q4E with ⟨_, hd⟩ | ⟨_, hd⟩
    · rw [hd]; exact d3E
    · rw [hd]; exact d3D
  obtain ⟨Q5D, Q5F, _, Q5E, Q5M, Q5W, Q5C, Q5R, _, _⟩ :=
    stage_decode_proj (stage_execute (stage_memory (stage_writeback (stage_commit cpu))))
  have d5E : (stage_decode (stage_execute (stage_memory (stage_writeback
      (stage_commit cpu))))).pipeE.dest = 0 := by rw [Q5E]; exact d4E
  have d5M : (stage_decode (stage_execute (stage_memory (stage_writeback
      (stage_commit cpu))))).pipeM.dest = 0 := by rw [Q5M]; exact d4M
  have d5W : (stage_decode (stage_execute (stage_memory (stage_writeback
      (stage_commit cpu))))).pipeW.dest = 0 := by rw [Q5W]; exact d4W
  have d5C : (stage_decode (stage_execute (stage_memory (stage_writeback
      (stage_commit cpu))))).pipeC.dest = 0 := by rw [Q5C]; exact d4C
  have d5F : (stage_decode (stage_execute (stage_memory (stage_writeback
      (stage_commit cpu))))).pipeF.dest = 0 := by
    rcases Q5F with hEq | hEq
    · rw [hEq]; exact d4F
    · rw [hEq]; exact d4F
  have d5D : (stage_decode (stage_execute (stage_memory (stage_writeback
      (stage_commit cpu))))).pipeD.dest = 0 := by
    rcases Q5D with ⟨_, hd⟩ | ⟨_, hd⟩
    · rw [hd]; exact d4D
    · rw [hd]; exact d4F
  obtain ⟨R6F, R6D, R6E, R6M, R6W, R6C, R6R, _⟩ :=
    stage_fetch_proj (stage_decode (stage_execute (stage_memory (stage_writeback
      (stage_commit cpu)))))
  constructor
  · refine ⟨?_, ?_, ?_, ?_, ?_, ?_⟩
    · show (stage_fetch (stage_decode (stage_execute (stage_memory (stage_writeback
        (stage_commit cpu)))))).pipeF.dest = 0
      rw [R6F]; exact d5F
    · show (stage_fetch (stage_decode (stage_execute (stage_memory (stage_writeback
        (stage_commit cpu)))))).pipeD.dest = 0
      rw [R6D]; exact d5D
    · show (stage_fetch (stage_decode (stage_execute (stage_memory (stage_writeback
        (stage_commit cpu)))))).pipeE.dest = 0
      rw [R6E]; exact d5E
    · show (stage_fetch (stage_decode (stage_execute (stage_memory (stage_writeback
        (stage_commit cpu)))))).pipeM.dest = 0
      rw [R6M]; exact d5M
    · show (stage_fetch (stage_decode (stage_execute (stage_memory (stage_writeback
        (stage_commit cpu)))))).pipeW.dest = 0
      rw [R6W]; exact d5W
    · show (stage_fetch (stage_decode (stage_execute (stage_memory (stage_writeback
        (stage_commit cpu)))))).pipeC.dest = 0
      rw [R6C]; exact d5C
  · intro i hi
    show (stage_fetch (stage_decode (stage_execute (stage_memory (stage_writeback
      (stage_commit cpu)))))).registers i = cpu.registers i
    rw [R6R, Q5R, Q4R, Q3R, Q2R i (by rw [d1M]; omega), Q1R]

theorem destFree_run (n : Nat) (cpu : CPU) (h : destFree cpu) :
    destFree (cpu_run n cpu) ∧
    ∀ i, 1 ≤ i → (cpu_run n cpu).registers i = cpu.registers i := by
  induction n generalizing cpu with
  | zero => exact ⟨h, fun i _ => rfl⟩
  | succ n ih =>
    obtain ⟨hstep, hregs⟩ := destFree_step cpu h
    obtain ⟨hrun, hrregs⟩ := ih (cpu_step cpu) hstep
    refine ⟨hrun, fun i hi => ?_⟩
    show (cpu_run n (cpu_step cpu)).registers i = cpu.registers i
    rw [hrregs i hi, hregs i hi]

/-- C3: the hazard-correctness scenario fails in the code.  `stage_decode`
never assigns the `dest` field of any pipeline register, so every loaded
program starts with all destinations 0 and keeps them 0; `stage_writeback`
therefore only ever writes register R0, and for ANY program loaded into a
fresh machine — the `MOV R0,10; ADD R1,R0,R0` hazard program included —
every register other than R0 is still 0 after any number of cycles, so R1
ends at 0, never 20. -/
theorem hazard_stall_claim_fails (mem0 : Nat → Nat) (sz : Nat) (prog : List Nat)
    (addr : Nat) (c : CPU)
    (h : cpu_load_program (cpu_create mem0 sz) prog addr = some c)
    (n i : Nat) (hi : 1 ≤ i) :
    (cpu_run n c).registers i = 0 := by
  unfold cpu_load_program at h
  split at h
  · exact absurd h (by simp)
  · injection h with h
    subst h
    have hdf : destFree { cpu_create mem0 sz with
        memory := overlayProg (cpu_create mem0 sz).memory prog addr, pc := addr } :=
      ⟨rfl, rfl, rfl, rfl, rfl, rfl⟩
    rw [(destFree_run n _ hdf).2 i hi]
    rfl

/-- C3 witness: after loading the hazard program and running 20 cycles
(ample time for the five-stage pipeline to drain), R1 is 0. -/
theorem hazard_stall_claim_fails_witness :
    (cpu_run 20 c3Loaded).registers 1 = 0 :=
  hazard_stall_claim_fails (fun _ => 0) 65536 [19, 0, 10, 1, 16, 0] 4096 c3Loaded rfl
    20 1 (by omega)

/-! ## C10: HLT fetched as NOP -/

theorem fetchDecodeType_nop (b : Nat) (h : b = 0 ∨ 20 ≤ b) :
    fetchDecodeType b = .NOP := by
  rcases h with rfl | h
  · rfl
  · unfold fetchDecodeType
    rw [if_neg (by omega)]

theorem allNop_step (cpu : CPU) (hinv : allNopQuiet cpu) (hmem : nopBytes cpu.memory) :
    allNopQuiet (cpu_step cpu) ∧ (cpu_step cpu).memory = cpu.memory ∧
    (cpu_step cpu).pc = (cpu.pc + 1) % U64 := by
  obtain ⟨hF, hD, hE, hM, hW, hC, hS⟩ := hinv
  obtain ⟨Q1C, Q1F, Q1D, Q1E, Q1M, Q1W, _, Q1Mem, Q1PC⟩ := stage_commit_proj cpu
  have t1F : (stage_commit cpu).pipeF.type = .NOP := by rw [Q1F]; exact hF
  have s1F : (stage_commit cpu).pipeF.stall = false := by rw [Q1F]
  have t1D : (stage_commit cpu).pipeD.type = .NOP := by rw [Q1D]; exact hD
  have t1E : (stage_commit cpu).pipeE.type = .NOP := by rw [Q1E]; exact hE
  have t1M : (stage_commit cpu).pipeM.type = .NOP := by rw [Q1M]; exact hM
  have t1W : (stage_commit cpu).pipeW.type = .NOP := by rw [Q1W]; exact hW
  have t1C : (stage_commit cpu).pipeC.type = .NOP := by
    rcases Q1C with ⟨ht, _⟩ | hEq
    · exact ht
    · rw [hEq]; exact hW
  obtain ⟨Q2W, _, Q2F, Q2D, Q2E, Q2M, Q2C, Q2Mem, Q2PC⟩ :=
    stage_writeback_proj (stage_commit cpu)
  have t2F : (stage_writeback (stage_commit cpu)).pipeF.type = .NOP := by rw [Q2F]; exact t1F
  have s2F : (stage_writeback (stage_commit cpu)).pipeF.stall = false := by rw [Q2F]; exact s1F
  have t2D : (stage_writeback (stage_commit cpu)).pipeD.type = .NOP := by rw [Q2D]; exact t1D
  have t2E : (stage_writeback (stage_commit cpu)).pipeE.type = .NOP := by rw [Q2E]; exact t1E
  have t2M : (stage_writeback (stage_commit cpu)).pipeM.type = .NOP := by rw [Q2M]; exact t1M
  have t2C : (stage_writeback (stage_commit cpu)).pipeC.type = .NOP := by rw [Q2C]; exact t1C
  have t2W : (stage_writeback (stage_commit cpu)).pipeW.type = .NOP := by
    rcases Q2W with ⟨ht, _⟩ | ⟨ht, _⟩
    · exact ht
    · rw [ht]; exact t1M
  obtain ⟨Q3M, Q3F, Q3D, Q3E, Q3W, Q3C, _, Q3PC, Q3Mem⟩ :=
    stage_memory_proj (stage_writeback (stage_commit cpu))
  have t3F : (stage_memory (stage_writeback (stage_commit cpu))).pipeF.type = .NOP := by
    rw [Q3F]; exact t2F
  have s3F : (stage_memory (stage_writeback (stage_commit cpu))).pipeF.stall = false := by
    rw [Q3F]; exact s2F
  have t3D : (stage_memory (stage_writeback (stage_commit cpu))).pipeD.type = .NOP := by
    rw [Q3D]; exact t2D
  have t3E : (stage_memory (stage_writeback (stage_commit cpu))).pipeE.type = .NOP := by
    rw [Q3E]; exact t2E
  have t3W : (stage_memory (stage_writeback (stage_commit cpu))).pipeW.type = .NOP := by
    rw [Q3W]; exact t2W
  have t3C : (stage_memory (stage_writeback (stage_commit cpu))).pipeC.type = .NOP := by
    rw [Q3C]; exact t2C
  have t3M : (stage_memory (stage_writeback (stage_commit cpu))).pipeM.type = .NOP := by
    rcases Q3M with ⟨ht, _⟩ | ⟨ht, _⟩
    · exact ht
    · rw [ht]; exact t2E
  have m3 : (stage_memory (stage_writeback (stage_commit cpu))).memory = cpu.memory := by
    rw [Q3Mem (by rw [t2E]; intro hc; cases hc), Q2Mem, Q1Mem]
  obtain ⟨Q4E, Q4F, Q4D, Q4M, Q4W, Q4C, _, Q4Mem, Q4PC⟩ :=
    stage_execute_proj (stage_memory (stage_writeback (stage_commit cpu)))
  have t4F : (stage_execute (stage_memory (stage_writeback (stage_commit cpu)))).pipeF.type
      = .NOP := by rw [Q4F]; exact t3F
  have s4F : (stage_execute (stage_memory (stage_writeback (stage_commit cpu)))).pipeF.stall
      = false := by rw [Q4F]; exact s3F
  have t4D : (stage_execute (stage_memory (stage_writeback (stage_commit cpu)))).pipeD.type
      = .NOP := by rw [Q4D]; exact t3D
  have t4M : (stage_execute (stage_memory (stage_writeback (stage_commit cpu)))).pipeM.type
      = .NOP := by rw [Q4M]; exact t3M
  have t4W : (stage_execute (stage_memory (stage_writeback (stage_commit cpu)))).pipeW.type
      = .NOP := by rw [Q4W]; exact t3W
  have t4C : (stage_execute (stage_memory (stage_writeback (stage_commit cpu)))).pipeC.type
      = .NOP := by rw [Q4C]; exact t3C
  have t4E : (stage_execute (stage_memory (stage_writeback (stage_commit cpu)))).pipeE.type
      = .NOP := by
    rcases Q4E with ⟨ht, _⟩ | ⟨ht, _⟩
    · exact ht
    · rw [ht]; exact t3D
  obtain ⟨Q5D, _, Q5Fq, Q5E, Q5M, Q5W, Q5C, _, Q5Mem, Q5PC⟩ :=
    stage_decode_proj (stage_execute (stage_memory (stage_writeback (stage_commit cpu))))
  have hz1 := check_hazard_nop
    (stage_execute (stage_memory (stage_writeback (stage_commit cpu))))
    ((stage_execute (stage_memory (stage_writeback (stage_commit cpu)))).pipeF.src1)
    t4E t4M t4W t4C
  have hz2 := check_hazard_nop
    (stage_execute (stage_memory (stage_writeback (stage_commit cpu))))
    ((stage_execute (stage_memory (stage_writeback (stage_commit cpu)))).pipeF.src2)
    t4E t4M t4W t4C
  have Q5F := Q5Fq hz1 hz2
  have t5F : (stage_decode (stage_execute (stage_memory (stage_writeback
      (stage_commit cpu))))).pipeF.type = .NOP := by rw [Q5F]; exact t4F
  have s5F : (stage_decode (stage_execute (stage_memory (stage_writeback
      (stage_commit cpu))))).pipeF.stall = false := by rw [Q5F]; exact s4F
  have t5E : (stage_decode (stage_execute (stage_memory (stage_writeback
      (stage_commit cpu))))).pipeE.type = .NOP := by rw [Q5E]; exact t4E
  have t5M : (stage_decode (stage_execute (stage_memory (stage_writeback
      (stage_commit cpu))))).pipeM.type = .NOP := by rw [Q5M]; exact t4M
  have t5W : (stage_decode (stage_execute (stage_memory (stage_writeback
      (stage_commit cpu))))).pipeW.type = .NOP := by rw [Q5W]; exact t4W
  have t5C : (stage_decode (stage_execute (stage_memory (stage_writeback
      (stage_commit cpu))))).pipeC.type = .NOP := by rw [Q5C]; exact t4C
  have t5D : (stage_decode (stage_execute (stage_memory (stage_writeback
      (stage_commit cpu))))).pipeD.type = .NOP := by
    rcases Q5D with ⟨ht, _⟩ | ⟨ht, _⟩
    · exact ht
    · rw [ht]; exact t4F
  have m5 : (stage_decode (stage_execute (stage_memory (stage_writeback
      (stage_commit cpu))))).memory = cpu.memory := by rw [Q5Mem, Q4Mem, m3]
  have p5 : (stage_decode (stage_execute (stage_memory (stage_writeback
      (stage_commit cpu))))).pc = cpu.pc := by rw [Q5PC, Q4PC, Q3PC, Q2PC, Q1PC]
  obtain ⟨F6pc, F6ty, F6st, F6D, F6E, F6M, F6W, F6C, F6Mem⟩ :=
    stage_fetch_quiet (stage_decode (stage_execute (stage_memory (stage_writeback
      (stage_commit cpu))))) s5F t5E
  refine ⟨⟨?_, ?_, ?_, ?_, ?_, ?_, ?_⟩, ?_, ?_⟩
  · show (stage_fetch (stage_decode (stage_execute (stage_memory (stage_writeback
      (stage_commit cpu)))))).pipeF.type = .NOP
    rw [F6ty, m5, p5]
    exact fetchDecodeType_nop _ (hmem cpu.pc)
  · show (stage_fetch (stage_decode (stage_execute (stage_memory (stage_writeback
      (stage_commit cpu)))))).pipeD.type = .NOP
    rw [F6D]; exact t5D
  · show (stage_fetch (stage_decode (stage_execute (stage_memory (stage_writeback
      (stage_commit cpu)))))).pipeE.type = .NOP
    rw [F6E]; exact t5E
  · show (stage_fetch (stage_decode (stage_execute (stage_memory (stage_writeback
      (stage_commit cpu)))))).pipeM.type = .NOP
    rw [F6M]; exact t5M
  · show (stage_fetch (stage_decode (stage_execute (stage_memory (stage_writeback
      (stage_commit cpu)))))).pipeW.type = .NOP
    rw [F6W]; exact t5W
  · show (stage_fetch (stage_decode (stage_execute (stage_memory (stage_writeback
      (stage_commit cpu)))))).pipeC.type = .NOP
    rw [F6C]; exact t5C
  · show (stage_fetch (stage_decode (stage_execute (stage_memory (stage_writeback
      (stage_commit cpu)))))).pipeF.stall = false
    exact F6st
  · show (stage_fetch (stage_decode (stage_execute (stage_memory (stage_writeback
      (stage_commit cpu)))))).memory = cpu.memory
    rw [F6Mem]; exact m5
  · show (stage_fetch (stage_decode (stage_execute (stage_memory (stage_writeback
      (stage_commit cpu)))))).pc = (cpu.pc + 1) % U64
    rw [F6pc, p5]

theorem allNop_run (n : Nat) (cpu : CPU) (hinv : allNopQuiet cpu)
    (hmem : nopBytes cpu.memory) (hpc : cpu.pc < U64) :
    (cpu_run n cpu).pc = (cpu.pc + n) % U64 := by
  induction n generalizing cpu with
  | zero => exact (Nat.mod_eq_of_lt hpc).symm
  | succ n ih =>
    obtain ⟨hinv2, hmem2, hpc2⟩ := allNop_step cpu hinv hmem
    have hmem2' : nopBytes (cpu_step cpu).memory := by rw [hmem2]; exact hmem
    have hpc2' : (cpu_step cpu).pc < U64 := by
      rw [hpc2]
      exact Nat.mod_lt _ (by norm_num [U64])
    have h := ih (cpu_step cpu) hinv2 hmem2' hpc2'
    show (cpu_run n (cpu_step cpu)).pc = (cpu.pc + (n + 1)) % U64
    rw [h, hpc2, Nat.mod_add_mod, Nat.add_assoc, Nat.add_comm 1 n]

/-- C10: the fetch-stage opcode map sends every byte value of 20 or more
to NOP; the HLT opcode is exactly 20 (0x14, the last enumerator, as the
instruction table records); and a machine whose fetched bytes all decode
to NOP never halts — its program counter advances by one (mod 2^64)
every cycle, forever. -/
theorem hlt_fetched_as_nop_pc_advances :
    (∀ b, 20 ≤ b → fetchDecodeType b = .NOP) ∧
    instTypeVal .HLT = 20 ∧
    lookupByType .HLT = some ⟨0x14, .HLT, .S, "hlt"⟩ ∧
    (∀ cpu : CPU, allNopQuiet cpu → nopBytes cpu.memory → cpu.pc < U64 →
      ∀ n, (cpu_run n cpu).pc = (cpu.pc + n) % U64) := by
  refine ⟨?_, rfl, rfl, ?_⟩
  · intro b hb
    exact fetchDecodeType_nop b (Or.inr hb)
  · intro cpu h1 h2 h3 n
    exact allNop_run n cpu h1 h2 h3

/-- C10 witness: a fresh machine whose memory is all zero bytes (each of
which fetches as NOP) advances its pc from 0x1000 to 0x1005 in 5
cycles. -/
theorem hlt_fetched_as_nop_pc_advances_witness :
    (cpu_run 5 (cpu_create (fun _ => 0) 65536)).pc = 4101 := by
  have h := hlt_fetched_as_nop_pc_advances.2.2.2 (cpu_create (fun _ => 0) 65536)
    ⟨rfl, rfl, rfl, rfl, rfl, rfl, rfl⟩ (fun _ => Or.inl rfl) (by decide) 5
  rw [h]
  decide

end Spectre
